import Mathlib

set_option maxRecDepth 8192

/-!
Verification of the USDC facilitator core against its specification.

The development shallowly embeds:
  * the Solidity contract `src/contract/USDCFacilitatorBulk.sol`
    (the four `facilitate...WithPermit` entry points, the replay
    registry `usedPermits`, and the value-transfer calls into the
    token), and
  * the JavaScript amount codec `src/src/utils/permitUtils.js`
    (`formatUSDCAmount` / `parseUSDCAmount`, which wrap ethers v6
    `parseUnits` / `formatUnits`).

Modelling choices, stated once here:
  * Addresses are natural numbers; `0` is the null address.
  * `keccak256(abi.encodePacked(...))` is modelled as an injective
    constructor of the inductive type `PermitHash`, one constructor per
    packed shape.  This is the standard collision-freedom idealisation;
    the three packed encodings used by the contract have pairwise
    distinct byte lengths (169, 201 and 168 bytes), so cross-shape
    collisions are impossible for the concrete code as well.
  * ECDSA signatures are modelled symbolically: a signature value is
    the tuple of fields it attests to (ideal unforgeable, canonical
    signatures).  The token's EIP-2612 `permit` accepts a signature
    exactly when it matches the owner, spender, value, deadline and the
    owner's current nonce, and then advances the nonce and sets the
    allowance, as USDC's FiatToken does.
  * An external call is a function from the pre-state to
    `Except Rev Outcome`.  Returning `.error _` models a Solidity
    `revert`: the EVM discards every storage write of the reverted
    call, so no post-state is produced and the caller continues from
    the unchanged pre-state.  In particular a `usedPermits` write
    followed by a revert is rolled back.
  * Solidity 0.8 checked arithmetic: additions that can overflow
    `uint256` in the source (the bulk recipient-amount accumulation)
    are guarded and revert with `Rev.arithOverflow` when the sum
    reaches `2 ^ 256`.  The single-transfer subtraction
    `value - feeAmount` is performed only after the `feeAmount < value`
    check, hence never underflows, and is modelled by `Nat` subtraction.
-/

namespace USDCFacilitator

/-- Addresses; `0` plays the role of `address(0)`. -/
abbrev Addr := Nat

/-- Pointwise map update, used for balances, nonces and the replay registry. -/
def upd {α β : Type} [DecidableEq α] (f : α → β) (x : α) (v : β) : α → β :=
  fun a => if a = x then v else f a

/-- Symbolic ECDSA signature (ideal-signature model): the value `(v, r, s)`
is identified with the typed message it recovers to.  Two requests carry
the same signature bytes exactly when they carry the same `Sig` value. -/
structure Sig where
  signer : Addr
  spender : Addr
  value : Nat
  nonce : Nat
  deadline : Nat
deriving DecidableEq, Repr

/-- Custom errors of the `USDCFacilitator` contract, as declared in the source. -/
inductive Err where
  | InvalidPermitSignature
  | PermitAlreadyUsed
  | PermitExpired
  | InsufficientBalance
  | InvalidFeeAmount
  | InvalidRecipient
  | ZeroAmount
  | InvalidFeeCollector
  | EmptyRecipientList
  | InvalidRecipientAmount
deriving DecidableEq, Repr

/-- A revert reason: one of the facilitator's custom errors, a revert raised
inside the token (a failing `transferFrom`), or a checked-arithmetic panic. -/
inductive Rev where
  | facil (e : Err)
  | tokenRevert
  | arithOverflow
deriving DecidableEq, Repr

/-- Replay-registry keys.  Each constructor embeds one of the contract's
`keccak256(abi.encodePacked(...))` computations; injectivity of the
constructors is the collision-resistance idealisation. -/
inductive PermitHash where
  /-- `keccak256(abi.encodePacked(owner, address(this), value, deadline, v, r, s))`
  used by `facilitateTransferWithPermit`. -/
  | single (owner self : Addr) (value deadline : Nat) (sig : Sig)
  /-- `keccak256(abi.encodePacked(owner, address(this), value, deadline, nonce, v, r, s))`
  used by `facilitateTransferWithNonStandardPermit`. -/
  | singleNonce (owner self : Addr) (value deadline nonce : Nat) (sig : Sig)
  /-- `keccak256(abi.encodePacked(owner, address(this), totalValue, deadline, nonce, recipients.length))`
  used by `facilitateBulkTransferWithNonStandardPermit`. -/
  | bulkNonce (owner self : Addr) (totalValue deadline nonce count : Nat)
deriving DecidableEq, Repr

/-- The external ERC20/EIP-2612 token (USDC), reduced to the state the
facilitator interacts with: balances, permit nonces and allowances. -/
structure TokenState where
  balances : Addr → Nat
  nonces : Addr → Nat
  allowance : Addr → Addr → Nat

/-- The facilitator contract's own storage plus its immutable identity. -/
structure FacilState where
  self : Addr
  feeCollector : Addr
  usedPermits : PermitHash → Bool

/-- The world a call executes in: facilitator storage, token storage and
`block.timestamp`. -/
structure Chain where
  facil : FacilState
  token : TokenState
  timestamp : Nat

/-- One `transferFrom(owner, to, amount)` call as it appears in the trace. -/
structure Transfer where
  src : Addr
  dst : Addr
  amount : Nat
deriving DecidableEq, Repr

/-- Result of a non-reverting call: the post-state and the ordered list of
token transfers the call performed. -/
structure Outcome where
  chain : Chain
  trace : List Transfer

/-- `usdc.transferFrom(src, dst, amt)` issued by `spender`: requires
sufficient balance and allowance, moves the amount and burns the allowance;
`none` models the token reverting the call. -/
def transferFrom (t : TokenState) (spender src dst : Addr) (amt : Nat) :
    Option TokenState :=
  if amt ≤ t.balances src ∧ amt ≤ t.allowance src spender then
    let afterSub := upd t.balances src (t.balances src - amt)
    some { t with
      balances := upd afterSub dst (afterSub dst + amt)
      allowance := fun o s =>
        if o = src ∧ s = spender then t.allowance src spender - amt
        else t.allowance o s }
  else none

/-- `usdc.permit(owner, spender, value, deadline, v, r, s)` (EIP-2612 /
FiatToken): succeeds exactly when the deadline has not passed and the
signature attests to `(owner, spender, value, current nonce, deadline)`;
on success the nonce advances and the allowance is set to `value`. -/
def permitOp (t : TokenState) (owner spender : Addr) (value deadline : Nat)
    (sig : Sig) (now : Nat) : Option TokenState :=
  if now ≤ deadline ∧
      sig = { signer := owner, spender := spender, value := value,
              nonce := t.nonces owner, deadline := deadline } then
    some { t with
      nonces := upd t.nonces owner (t.nonces owner + 1)
      allowance := fun o s =>
        if o = owner ∧ s = spender then value else t.allowance o s }
  else none

/-- The `Recipient` struct of the contract. -/
structure Recipient where
  toAddr : Addr
  amount : Nat
deriving DecidableEq, Repr

/-- `2 ^ 256`, the checked-arithmetic overflow bound for `uint256`. -/
def UINT256 : Nat := 2 ^ 256

/-- The recipient-validation loop of the bulk functions: checks, in list
order, each recipient for a null address and a zero amount and accumulates
the running sum with `uint256` checked addition. -/
def checkRecipientsAux (acc : Nat) : List Recipient → Except Rev Nat
  | [] => .ok acc
  | r :: rs =>
    if r.toAddr = 0 then .error (.facil .InvalidRecipient)
    else if r.amount = 0 then .error (.facil .InvalidRecipientAmount)
    else if acc + r.amount < UINT256 then checkRecipientsAux (acc + r.amount) rs
    else .error .arithOverflow

/-- The recipient-transfer loop of the bulk functions, returning the final
token state and the transfers in list order. -/
def doTransfers (t : TokenState) (spender owner : Addr) :
    List Recipient → Except Rev (TokenState × List Transfer)
  | [] => .ok (t, [])
  | r :: rs =>
    match transferFrom t spender owner r.toAddr r.amount with
    | none => .error .tokenRevert
    | some t1 =>
      match doTransfers t1 spender owner rs with
      | .error e => .error e
      | .ok (t2, tr) => .ok (t2, { src := owner, dst := r.toAddr, amount := r.amount } :: tr)

/-- The fee-transfer step shared by all four entry points: moves the fee to
the fee collector, skipped entirely when the fee is zero. -/
def feeStep (t : TokenState) (spender owner collector : Addr) (feeAmount : Nat) :
    Except Rev (TokenState × List Transfer) :=
  if feeAmount > 0 then
    match transferFrom t spender owner collector feeAmount with
    | none => .error .tokenRevert
    | some t1 => .ok (t1, [{ src := owner, dst := collector, amount := feeAmount }])
  else .ok (t, [])

/-- `facilitateTransferWithPermit` (contract lines 110-163), translated
statement by statement; `.error` models `revert` (all writes discarded). -/
def facilitateTransferWithPermit (c : Chain) (owner toAddr : Addr)
    (value deadline : Nat) (sig : Sig) (feeAmount : Nat) : Except Rev Outcome :=
  if owner = 0 ∨ toAddr = 0 then .error (.facil .InvalidRecipient)
  else if value = 0 then .error (.facil .ZeroAmount)
  else if value ≤ feeAmount then .error (.facil .InvalidFeeAmount)
  else if deadline < c.timestamp then .error (.facil .PermitExpired)
  else if c.facil.usedPermits
      (PermitHash.single owner c.facil.self value deadline sig) then
    .error (.facil .PermitAlreadyUsed)
  else if c.token.balances owner < value then .error (.facil .InsufficientBalance)
  else
    match permitOp c.token owner c.facil.self value deadline sig c.timestamp with
    | none => .error (.facil .InvalidPermitSignature)
    | some t1 =>
      match feeStep t1 c.facil.self owner c.facil.feeCollector feeAmount with
      | .error e => .error e
      | .ok (t2, tr1) =>
        match transferFrom t2 c.facil.self owner toAddr (value - feeAmount) with
        | none => .error .tokenRevert
        | some t3 =>
          .ok { chain := { c with
                  facil := { c.facil with
                    usedPermits := upd c.facil.usedPermits
                      (PermitHash.single owner c.facil.self value deadline sig)
                      true }
                  token := t3 }
                trace := tr1 ++ [{ src := owner, dst := toAddr, amount := value - feeAmount }] }

/-- `facilitateBulkTransferWithPermit` (contract lines 176-227).  Note:
this entry point computes no permit hash and never consults or updates
`usedPermits`; that is faithful to the source. -/
def facilitateBulkTransferWithPermit (c : Chain) (owner : Addr)
    (recipients : List Recipient) (totalValue deadline : Nat) (sig : Sig)
    (feeAmount : Nat) : Except Rev Outcome :=
  if owner = 0 then .error (.facil .InvalidRecipient)
  else if recipients = [] then .error (.facil .EmptyRecipientList)
  else if totalValue = 0 then .error (.facil .ZeroAmount)
  else if totalValue ≤ feeAmount then .error (.facil .InvalidFeeAmount)
  else if deadline < c.timestamp then .error (.facil .PermitExpired)
  else
    match checkRecipientsAux 0 recipients with
    | .error e => .error e
    | .ok totalRecipientAmount =>
      if UINT256 ≤ totalRecipientAmount + feeAmount then .error .arithOverflow
      else if totalValue ≠ totalRecipientAmount + feeAmount then .error (.facil .InvalidFeeAmount)
      else if c.token.balances owner < totalValue then .error (.facil .InsufficientBalance)
      else
        match permitOp c.token owner c.facil.self totalValue deadline sig c.timestamp with
        | none => .error (.facil .InvalidPermitSignature)
        | some t1 =>
          match feeStep t1 c.facil.self owner c.facil.feeCollector feeAmount with
          | .error e => .error e
          | .ok (t2, tr1) =>
            match doTransfers t2 c.facil.self owner recipients with
            | .error e => .error e
            | .ok (t3, tr2) =>
              .ok { chain := { c with token := t3 }, trace := tr1 ++ tr2 }

/-- `facilitateTransferWithNonStandardPermit` (contract lines 240-297):
identical to the standard single entry point except that the permit hash
additionally packs the owner's current token nonce. -/
def facilitateTransferWithNonStandardPermit (c : Chain) (owner toAddr : Addr)
    (value deadline : Nat) (sig : Sig) (feeAmount : Nat) : Except Rev Outcome :=
  if owner = 0 ∨ toAddr = 0 then .error (.facil .InvalidRecipient)
  else if value = 0 then .error (.facil .ZeroAmount)
  else if value ≤ feeAmount then .error (.facil .InvalidFeeAmount)
  else if deadline < c.timestamp then .error (.facil .PermitExpired)
  else if c.facil.usedPermits
      (PermitHash.singleNonce owner c.facil.self value deadline
        (c.token.nonces owner) sig) then
    .error (.facil .PermitAlreadyUsed)
  else if c.token.balances owner < value then .error (.facil .InsufficientBalance)
  else
    match permitOp c.token owner c.facil.self value deadline sig c.timestamp with
    | none => .error (.facil .InvalidPermitSignature)
    | some t1 =>
      match feeStep t1 c.facil.self owner c.facil.feeCollector feeAmount with
      | .error e => .error e
      | .ok (t2, tr1) =>
        match transferFrom t2 c.facil.self owner toAddr (value - feeAmount) with
        | none => .error .tokenRevert
        | some t3 =>
          .ok { chain := { c with
                  facil := { c.facil with
                    usedPermits := upd c.facil.usedPermits
                      (PermitHash.singleNonce owner c.facil.self value deadline
                        (c.token.nonces owner) sig)
                      true }
                  token := t3 }
                trace := tr1 ++ [{ src := owner, dst := toAddr, amount := value - feeAmount }] }

/-- The replay fingerprint computed inside
`facilitateBulkTransferWithNonStandardPermit` (contract lines 342-349):
it packs the owner, the contract address, the total value, the deadline,
the owner's current nonce and the recipient count only. -/
def bulkNonStdFingerprint (c : Chain) (owner : Addr) (totalValue deadline : Nat)
    (count : Nat) : PermitHash :=
  PermitHash.bulkNonce owner c.facil.self totalValue deadline
    (c.token.nonces owner) count

/-- `facilitateBulkTransferWithNonStandardPermit` (contract lines 310-376). -/
def facilitateBulkTransferWithNonStandardPermit (c : Chain) (owner : Addr)
    (recipients : List Recipient) (totalValue deadline : Nat) (sig : Sig)
    (feeAmount : Nat) : Except Rev Outcome :=
  if owner = 0 then .error (.facil .InvalidRecipient)
  else if recipients = [] then .error (.facil .EmptyRecipientList)
  else if totalValue = 0 then .error (.facil .ZeroAmount)
  else if totalValue ≤ feeAmount then .error (.facil .InvalidFeeAmount)
  else if deadline < c.timestamp then .error (.facil .PermitExpired)
  else
    match checkRecipientsAux 0 recipients with
    | .error e => .error e
    | .ok totalRecipientAmount =>
      if UINT256 ≤ totalRecipientAmount + feeAmount then .error .arithOverflow
      else if totalValue ≠ totalRecipientAmount + feeAmount then .error (.facil .InvalidFeeAmount)
      else if c.facil.usedPermits
          (bulkNonStdFingerprint c owner totalValue deadline
            recipients.length) then
        .error (.facil .PermitAlreadyUsed)
      else if c.token.balances owner < totalValue then
        .error (.facil .InsufficientBalance)
      else
        match permitOp c.token owner c.facil.self totalValue deadline sig c.timestamp with
        | none => .error (.facil .InvalidPermitSignature)
        | some t1 =>
          match feeStep t1 c.facil.self owner c.facil.feeCollector feeAmount with
          | .error e => .error e
          | .ok (t2, tr1) =>
            match doTransfers t2 c.facil.self owner recipients with
            | .error e => .error e
            | .ok (t3, tr2) =>
              .ok { chain := { c with
                      facil := { c.facil with
                        usedPermits := upd c.facil.usedPermits
                          (bulkNonStdFingerprint c owner totalValue deadline
                            recipients.length)
                          true }
                      token := t3 }
                    trace := tr1 ++ tr2 }

/-- Boolean success test on a call result. -/
def isOk {ε α : Type} : Except ε α → Bool
  | .ok _ => true
  | .error _ => false

end USDCFacilitator

namespace PermitUtils

/-!
Embedding of the amount codec of `src/src/utils/permitUtils.js`.

`formatUSDCAmount(amount, decimals)` calls ethers v6
`parseUnits(amount.toString(), decimals)` and returns the result's
`toString()`, and on ANY thrown error catches it and returns the string
`"0"`.  `parseUSDCAmount(amount, decimals)` likewise wraps ethers v6
`formatUnits` with the same catch-all.

ethers v6 `parseUnits(value, decimals)` delegates to
`FixedNumber.fromString(value, { decimals, width: 512 })`:
  * the string must match `(-?)([0-9]*)\.?([0-9]*)` with at least one
    digit overall, otherwise it throws;
  * the fractional digits beyond `decimals` must all be `0` (they are
    then truncated), otherwise it throws a numeric fault;
  * the scaled value must fit a signed 512-bit width, otherwise it
    throws an overflow fault;
  * note that a leading `-` is accepted: negative amounts parse
    successfully to negative integers.
`Option.none` models a thrown error.

ethers v6 `formatUnits(value, decimals)` renders the scaled integer with
a decimal point inserted `decimals` places from the right, then trims
leading zeros of the whole part down to at least one digit and trailing
zeros of the fractional part down to at least one digit (so `1000000`
at 6 decimals renders as `"1.0"`, not `"1.000000"`); with `decimals = 0`
no decimal point is produced.  The embedding below pads to exactly
`decimals + 1` characters before splitting, which yields the identical
string because the decimal representation produced by `natToDigits` has
no leading zeros.
-/

/-- Decimal digit test on characters. -/
def isDigit (c : Char) : Bool := 48 ≤ c.toNat && c.toNat ≤ 57

/-- Numeric value of a digit character. -/
def digitVal (c : Char) : Nat := c.toNat - 48

/-- Value of a big-endian digit string, as `BigInt(string)` computes it
(leading zeros allowed). -/
def digitsToNat (l : List Char) : Nat := l.foldl (fun a c => 10 * a + digitVal c) 0

/-- Strip the optional leading minus sign (the `(-?)` group of the regex). -/
def splitSign (l : List Char) : Bool × List Char :=
  match l with
  | c :: rest => if c = '-' then (true, rest) else (false, c :: rest)
  | [] => (false, [])

/-- Match `([0-9]*)\.?([0-9]*)` against the whole unsigned part, returning
the whole/fractional digit groups. -/
def matchDigits (rest : List Char) : Option (List Char × List Char) :=
  match rest.dropWhile isDigit with
  | [] => some (rest.takeWhile isDigit, [])
  | '.' :: fr =>
    if fr.all isDigit then some (rest.takeWhile isDigit, fr) else none
  | _ => none

/-- Match `(-?)([0-9]*)\.?([0-9]*)` against the whole string, returning the
sign and the whole/fractional digit groups. -/
def matchDecimal (l : List Char) : Option (Bool × List Char × List Char) :=
  match matchDigits (splitSign l).2 with
  | none => none
  | some (w, f) => some ((splitSign l).1, w, f)

/-- `2 ^ 511`, the signed bound of the 512-bit fixed-number width ethers
uses for `parseUnits` / `formatUnits`; written as a numeric literal so
that the kernel never unfolds a 511-step power. -/
def INT512 : Int :=
  6703903964971298549787012499102923063739682910296196688861780721860882015036773488400937149083451713845015929093243025426876941405973284973216824503042048

/-- The literal above is `2 ^ 511`. -/
theorem INT512_eq : INT512 = 2 ^ 511 := by
  norm_num [INT512]

/-- Apply the sign captured by the regex group `(-?)` to a magnitude, as
`BigInt(match[1] + digits)` does. -/
def applySign (neg : Bool) (m : Nat) : Int :=
  if neg then -(m : Int) else (m : Int)

/-- ethers v6 `parseUnits(value, decimals)`; `none` models a thrown error. -/
def parseUnits (s : String) (decimals : Nat) : Option Int :=
  match matchDecimal s.data with
  | none => none
  | some (neg, whole, frac) =>
    if whole.length + frac.length = 0 then none
    else
      let fracPadded := frac ++ List.replicate (decimals - frac.length) '0'
      if (fracPadded.drop decimals).all (· == '0') then
        let v : Int := applySign neg (digitsToNat (whole ++ fracPadded.take decimals))
        if -INT512 ≤ v ∧ v < INT512 then some v else none
      else none

/-- Big-endian decimal digits, fuel-bounded so that it reduces by
`rfl`; the fuel is always at least the argument when called through
`natToDigits`, which makes the zero-fuel branch unreachable. -/
def natToDigitsAux (fuel : Nat) (n : Nat) : List Char :=
  match fuel with
  | 0 => [Char.ofNat (48 + n)]
  | fuel + 1 =>
    if n < 10 then [Char.ofNat (48 + n)]
    else natToDigitsAux fuel (n / 10) ++ [Char.ofNat (48 + n % 10)]

/-- Big-endian decimal digits of a natural number, no leading zeros
(`BigInt.prototype.toString`). -/
def natToDigits (n : Nat) : List Char := natToDigitsAux n n

/-- Trim trailing `'0'` characters, keeping at least one character. -/
def trimFrac (l : List Char) : List Char :=
  if (l.reverse.dropWhile (· == '0')).reverse = [] then ['0']
  else (l.reverse.dropWhile (· == '0')).reverse

/-- ethers v6 `formatUnits(value, decimals)`; `none` models a thrown
overflow fault (value outside the signed 512-bit width). -/
def formatUnits (value : Int) (decimals : Nat) : Option String :=
  if -INT512 ≤ value ∧ value < INT512 then
    let sign := if value < 0 then "-" else ""
    let str := natToDigits value.natAbs
    if decimals = 0 then some (sign ++ String.mk str)
    else
      let padded := List.replicate (decimals + 1 - str.length) '0' ++ str
      let whole := padded.take (padded.length - decimals)
      let frac := trimFrac (padded.drop (padded.length - decimals))
      some (sign ++ String.mk whole ++ "." ++ String.mk frac)
  else none

/-- `BigInt.prototype.toString` on a signed integer. -/
def intToString (v : Int) : String :=
  if v < 0 then "-" ++ String.mk (natToDigits v.natAbs)
  else String.mk (natToDigits v.natAbs)

/-- `formatUSDCAmount` from `permitUtils.js`: wraps `parseUnits` and
returns the string `"0"` whenever `parseUnits` throws (the catch-all in
the source). -/
def formatUSDCAmount (amount : String) (decimals : Nat) : String :=
  ((parseUnits amount decimals).map intToString).getD "0"

/-- `parseUSDCAmount` from `permitUtils.js`: wraps `formatUnits` and
returns the string `"0"` whenever `formatUnits` throws (the catch-all in
the source). -/
def parseUSDCAmount (amount : Int) (decimals : Nat) : String :=
  (formatUnits amount decimals).getD "0"

/-- Number of characters after the first `'.'` of a string (fractional
digit count of a rendered decimal). -/
def fracDigitCount (s : String) : Nat :=
  ((s.data.dropWhile (· != '.')).drop 1).length

end PermitUtils

open USDCFacilitator PermitUtils

/-!
Concrete worlds used by counterexamples and witnesses.  Throughout,
address 1 is the token owner, 2 the fee collector, 3 and 4 recipients,
100 the facilitator contract; `block.timestamp` is 10.
-/

/-- A token state in which the owner (address 1) holds `bal` units and no
permit nonce has been consumed. -/
def baseToken (bal : Nat) : TokenState :=
  { balances := fun a => if a = 1 then bal else 0
    nonces := fun _ => 0
    allowance := fun _ _ => 0 }

/-- A world with an empty replay registry and owner balance `bal`. -/
def baseChain (bal : Nat) : Chain :=
  { facil := { self := 100, feeCollector := 2, usedPermits := fun _ => false }
    token := baseToken bal
    timestamp := 10 }

/-- A valid owner signature over `(owner 1, spender 100, value 1000000,
nonce 0, deadline 100)`. -/
def sigA : Sig :=
  { signer := 1, spender := 100, value := 1000000, nonce := 0, deadline := 100 }

/-- Post-state of a call, with a fallback world for reverted calls. -/
def chainOf (r : Except Rev Outcome) (fallback : Chain) : Chain :=
  match r with
  | .ok o => o.chain
  | .error _ => fallback

/-- Transfer trace of a call (empty for reverted calls). -/
def traceOf (r : Except Rev Outcome) : List Transfer :=
  match r with
  | .ok o => o.trace
  | .error _ => []

/-- `addRecipient` from `FacilitateTransfer.jsx` (lines 323-330): the ONLY
place a 50-recipient limit exists in the repository is this frontend form
handler, which refuses to append another recipient row once the form
already has 50; the contract itself enforces no batch-size cap.  The row is
reduced to the `Recipient` payload it eventually produces. -/
def addRecipient (recipients : List Recipient) (r : Recipient) :
    List Recipient :=
  if recipients.length < 50 then recipients ++ [r] else recipients

/-- Recipient-validation loop result determines the amount sum: a successful
pass returns the accumulator plus the sum of the recipient amounts. -/
theorem checkRecipientsAux_sum (rs : List Recipient) :
    ∀ acc s, checkRecipientsAux acc rs = .ok s →
      s = acc + (rs.map Recipient.amount).sum := by
  induction rs with
  | nil =>
    intro acc s h
    simp only [checkRecipientsAux] at h
    injection h with h
    simp [h.symm]
  | cons r rs ih =>
    intro acc s h
    simp only [checkRecipientsAux] at h
    split_ifs at h with h1 h2 h3
    all_goals first
      | exact Except.noConfusion h
      | (have hrec := ih _ _ h
         simp only [List.map_cons, List.sum_cons]
         omega)

/-- C4 counterexample: the claim demands `InvalidFeeAmount` for
`feeAmount >= totalValue` even with a null owner or a zero total value, but
the source checks `InvalidRecipient` and `ZeroAmount` first: with
`owner = 0, to = 3, value = 1, feeAmount = 1` the call reverts with
`InvalidRecipient`, and with `owner = 1, to = 3, value = 0, feeAmount = 0`
(so `feeAmount >= value`) it reverts with `ZeroAmount`. -/
theorem C4_counterexample :
    facilitateTransferWithPermit (baseChain 2000000) 0 3 1 100 sigA 1
      = .error (.facil .InvalidRecipient) ∧
    facilitateTransferWithPermit (baseChain 2000000) 1 3 0 100 sigA 0
      = .error (.facil .ZeroAmount) := by
  exact ⟨rfl, rfl⟩

/-- C4 (amended): for every request with a non-null owner, a non-null
recipient and a nonzero total value (for bulk requests: a non-empty
recipient list), `feeAmount >= totalValue` makes validation fail with
`InvalidFeeAmount`, whatever the remaining fields, the registry, the
balances and the timestamp are. -/
theorem C4_amended :
    (∀ (c : Chain) (owner toAddr value deadline : Nat) (sig : Sig)
        (feeAmount : Nat),
        owner ≠ 0 → toAddr ≠ 0 → value ≠ 0 → value ≤ feeAmount →
        facilitateTransferWithPermit c owner toAddr value deadline sig feeAmount
          = .error (.facil .InvalidFeeAmount)) ∧
    (∀ (c : Chain) (owner : Nat) (recipients : List Recipient)
        (totalValue deadline : Nat) (sig : Sig) (feeAmount : Nat),
        owner ≠ 0 → recipients ≠ [] → totalValue ≠ 0 → totalValue ≤ feeAmount →
        facilitateBulkTransferWithPermit c owner recipients totalValue deadline
            sig feeAmount
          = .error (.facil .InvalidFeeAmount)) := by
  constructor
  · intro c owner toAddr value deadline sig feeAmount h1 h2 h3 h4
    unfold facilitateTransferWithPermit
    rw [if_neg (fun hc => hc.elim h1 h2), if_neg h3, if_pos h4]
  · intro c owner recipients totalValue deadline sig feeAmount h1 h2 h3 h4
    unfold facilitateBulkTransferWithPermit
    rw [if_neg h1, if_neg h2, if_neg h3, if_pos h4]

/-- C4 witness: the amended theorem applied at a concrete request with
`feeAmount = totalValue = 1000000`. -/
theorem C4_witness :
    facilitateTransferWithPermit (baseChain 2000000) 1 3 1000000 100 sigA 1000000
      = .error (.facil .InvalidFeeAmount) ∧
    facilitateBulkTransferWithPermit (baseChain 2000000) 1
        [{ toAddr := 3, amount := 500000 }] 1000000 100 sigA 1000000
      = .error (.facil .InvalidFeeAmount) :=
  ⟨C4_amended.1 (baseChain 2000000) 1 3 1000000 100 sigA 1000000
      (by decide) (by decide) (by decide) (by decide),
    C4_amended.2 (baseChain 2000000) 1 [{ toAddr := 3, amount := 500000 }]
      1000000 100 sigA 1000000 (by decide) (by decide) (by decide) (by decide)⟩

/-- C3 counterexample: the claim quantifies over every request with a past
deadline and an already-marked fingerprint, but the null-identity checks run
before the deadline check: with `owner = 0`, `deadline = 5 <
block.timestamp = 10`, and the request's fingerprint marked used, the call
reverts with `InvalidRecipient`, not `PermitExpired`. -/
theorem C3_counterexample :
    facilitateTransferWithPermit
      { baseChain 2000000 with
        facil := { self := 100, feeCollector := 2,
                   usedPermits :=
                     upd (fun _ => false)
                       (PermitHash.single 0 100 1000000 5 sigA) true } }
      0 3 1000000 5 sigA 10000
      = .error (.facil .InvalidRecipient) := by
  rfl

/-- C3 (amended): for every request that passes the preliminary field
checks (non-null owner and recipient, nonzero value, fee below value) whose
deadline is in the past and whose fingerprint is already marked used,
validation reports `PermitExpired`, not `PermitAlreadyUsed`: the deadline
check runs before the fingerprint is computed or looked up, in both the
standard and the non-standard single-transfer entry points. -/
theorem C3_amended :
    (∀ (c : Chain) (owner toAddr value deadline : Nat) (sig : Sig)
        (feeAmount : Nat),
        owner ≠ 0 → toAddr ≠ 0 → value ≠ 0 → feeAmount < value →
        deadline < c.timestamp →
        c.facil.usedPermits
            (PermitHash.single owner c.facil.self value deadline sig) = true →
        facilitateTransferWithPermit c owner toAddr value deadline sig feeAmount
          = .error (.facil .PermitExpired)) ∧
    (∀ (c : Chain) (owner toAddr value deadline : Nat) (sig : Sig)
        (feeAmount : Nat),
        owner ≠ 0 → toAddr ≠ 0 → value ≠ 0 → feeAmount < value →
        deadline < c.timestamp →
        c.facil.usedPermits
            (PermitHash.singleNonce owner c.facil.self value deadline
              (c.token.nonces owner) sig) = true →
        facilitateTransferWithNonStandardPermit c owner toAddr value deadline
            sig feeAmount
          = .error (.facil .PermitExpired)) := by
  constructor
  · intro c owner toAddr value deadline sig feeAmount h1 h2 h3 h4 h5 _
    unfold facilitateTransferWithPermit
    rw [if_neg (fun hc => hc.elim h1 h2), if_neg h3,
      if_neg (by omega : ¬ value ≤ feeAmount), if_pos h5]
  · intro c owner toAddr value deadline sig feeAmount h1 h2 h3 h4 h5 _
    unfold facilitateTransferWithNonStandardPermit
    rw [if_neg (fun hc => hc.elim h1 h2), if_neg h3,
      if_neg (by omega : ¬ value ≤ feeAmount), if_pos h5]

/-- C3 witness: the amended theorem applied at a request with deadline 5,
timestamp 10 and the fingerprint marked used; the result is
`PermitExpired` for both entry points. -/
theorem C3_witness :
    facilitateTransferWithPermit
      { baseChain 2000000 with
        facil := { self := 100, feeCollector := 2,
                   usedPermits :=
                     upd (fun _ => false)
                       (PermitHash.single 1 100 1000000 5 sigA) true } }
      1 3 1000000 5 sigA 10000
      = .error (.facil .PermitExpired) ∧
    facilitateTransferWithNonStandardPermit
      { baseChain 2000000 with
        facil := { self := 100, feeCollector := 2,
                   usedPermits :=
                     upd (fun _ => false)
                       (PermitHash.singleNonce 1 100 1000000 5 0 sigA) true } }
      1 3 1000000 5 sigA 10000
      = .error (.facil .PermitExpired) :=
  ⟨C3_amended.1 _ 1 3 1000000 5 sigA 10000
      (by decide) (by decide) (by decide) (by decide) (by decide) (by decide),
    C3_amended.2 _ 1 3 1000000 5 sigA 10000
      (by decide) (by decide) (by decide) (by decide) (by decide) (by decide)⟩

/-- C2 counterexample: with owner balance 500000 and `totalValue = 1000000`
the call reverts with `InsufficientBalance`; since a Solidity revert rolls
back every storage write of the call, the `usedPermits[permitHash] = true`
write at line 138 is undone, so the identical retry (the state is the
unchanged pre-state) again reverts with `InsufficientBalance` and never
with `PermitAlreadyUsed`.  The pre-state registry is empty, witnessing
that the fingerprint was not durably consumed. -/
theorem C2_counterexample :
    facilitateTransferWithPermit (baseChain 500000) 1 3 1000000 100 sigA 10000
      = .error (.facil .InsufficientBalance) ∧
    facilitateTransferWithPermit (baseChain 500000) 1 3 1000000 100 sigA 10000
      ≠ .error (.facil .PermitAlreadyUsed) ∧
    (baseChain 500000).facil.usedPermits
      (PermitHash.single 1 100 1000000 100 sigA) = false := by
  refine ⟨rfl, ?_, rfl⟩
  intro h
  have : Rev.facil .InsufficientBalance = Rev.facil .PermitAlreadyUsed := by
    have h0 : facilitateTransferWithPermit (baseChain 500000) 1 3 1000000 100
        sigA 10000 = .error (.facil .InsufficientBalance) := rfl
    rw [h0] at h
    injection h
  exact absurd this (by decide)

/-- C2 (amended): if the owner's ledger balance is below `totalValue` (and
the earlier checks pass, with the fingerprint not yet consumed), validation
fails with `InsufficientBalance`; the revert rolls the replay marking back,
so the fingerprint is NOT left consumed, and an identical retry from the
(unchanged) post-revert state fails with `InsufficientBalance` again, not
`PermitAlreadyUsed`. -/
theorem C2_amended (c : Chain) (owner toAddr value deadline : Nat) (sig : Sig)
    (feeAmount : Nat)
    (h1 : owner ≠ 0) (h2 : toAddr ≠ 0) (h3 : value ≠ 0)
    (h4 : feeAmount < value) (h5 : c.timestamp ≤ deadline)
    (h6 : c.facil.usedPermits
        (PermitHash.single owner c.facil.self value deadline sig) = false)
    (h7 : c.token.balances owner < value) :
    facilitateTransferWithPermit c owner toAddr value deadline sig feeAmount
        = .error (.facil .InsufficientBalance) ∧
    facilitateTransferWithPermit c owner toAddr value deadline sig feeAmount
        ≠ .error (.facil .PermitAlreadyUsed) := by
  have key : facilitateTransferWithPermit c owner toAddr value deadline sig
      feeAmount = .error (.facil .InsufficientBalance) := by
    unfold facilitateTransferWithPermit
    rw [if_neg (fun hc => hc.elim h1 h2), if_neg h3,
      if_neg (by omega : ¬ value ≤ feeAmount),
      if_neg (by omega : ¬ deadline < c.timestamp),
      if_neg (by simp [h6]), if_pos h7]
  refine ⟨key, ?_⟩
  rw [key]
  intro h
  have : Rev.facil .InsufficientBalance = Rev.facil .PermitAlreadyUsed := by
    injection h
  exact absurd this (by decide)

/-- C2 witness: the amended theorem applied at the spec's own scenario,
owner balance 500000 against a 1000000 total. -/
theorem C2_witness :
    facilitateTransferWithPermit (baseChain 500000) 1 3 1000000 100 sigA 10000
        = .error (.facil .InsufficientBalance) ∧
    facilitateTransferWithPermit (baseChain 500000) 1 3 1000000 100 sigA 10000
        ≠ .error (.facil .PermitAlreadyUsed) :=
  C2_amended (baseChain 500000) 1 3 1000000 100 sigA 10000
    (by decide) (by decide) (by decide) (by decide) (by decide)
    (by decide) (by decide)

/-- Bulk success implies the sum law: a non-reverting
`facilitateBulkTransferWithPermit` call satisfied
`totalValue = sum(recipient amounts) + feeAmount`. -/
theorem bulk_ok_sum_law (c : Chain) (owner : Nat) (recipients : List Recipient)
    (totalValue deadline : Nat) (sig : Sig) (feeAmount : Nat) (o : Outcome)
    (h : facilitateBulkTransferWithPermit c owner recipients totalValue
        deadline sig feeAmount = .ok o) :
    totalValue = (recipients.map Recipient.amount).sum + feeAmount := by
  unfold facilitateBulkTransferWithPermit at h
  split_ifs at h
  all_goals try exact Except.noConfusion h
  all_goals
    split at h
  all_goals try exact Except.noConfusion h
  all_goals (
    rename_i s hs
    have hsum := checkRecipientsAux_sum recipients 0 s hs
    split_ifs at h with hov hne
    all_goals first
      | exact Except.noConfusion h
      | omega)

/-- C5 counterexample: the claim quantifies over every bulk request with a
broken sum law, but the deadline check runs first: with the spec's own
scenario `[(3,600000),(4,390000)]`, `feeAmount = 10000`,
`totalValue = 999999` and an expired deadline (5 < timestamp 10) the call
reverts with `PermitExpired`, not `InvalidFeeAmount`. -/
theorem C5_counterexample :
    facilitateBulkTransferWithPermit (baseChain 2000000) 1
        [{ toAddr := 3, amount := 600000 }, { toAddr := 4, amount := 390000 }]
        999999 5 sigA 10000
      = .error (.facil .PermitExpired) := by
  rfl

/-- C5 (amended): a bulk request whose recipient-amount sum plus fee does
not equal `totalValue` never executes a transfer (validation always
fails), and when the preceding checks pass (non-null owner, non-empty
list, nonzero total, fee below total, live deadline, all recipients
non-null with nonzero amounts, sums within `uint256`) the failure is
`InvalidFeeAmount`. -/
theorem C5_amended :
    (∀ (c : Chain) (owner : Nat) (recipients : List Recipient)
        (totalValue deadline : Nat) (sig : Sig) (feeAmount s : Nat),
        owner ≠ 0 → recipients ≠ [] → totalValue ≠ 0 → feeAmount < totalValue →
        c.timestamp ≤ deadline →
        checkRecipientsAux 0 recipients = .ok s →
        s + feeAmount < UINT256 →
        totalValue ≠ s + feeAmount →
        facilitateBulkTransferWithPermit c owner recipients totalValue deadline
            sig feeAmount
          = .error (.facil .InvalidFeeAmount)) ∧
    (∀ (c : Chain) (owner : Nat) (recipients : List Recipient)
        (totalValue deadline : Nat) (sig : Sig) (feeAmount : Nat),
        totalValue ≠ (recipients.map Recipient.amount).sum + feeAmount →
        isOk (facilitateBulkTransferWithPermit c owner recipients totalValue
            deadline sig feeAmount) = false) := by
  constructor
  · intro c owner recipients totalValue deadline sig feeAmount s
      h1 h2 h3 h4 h5 h6 h7 h8
    unfold facilitateBulkTransferWithPermit
    rw [if_neg h1, if_neg h2, if_neg h3,
      if_neg (by omega : ¬ totalValue ≤ feeAmount),
      if_neg (by omega : ¬ deadline < c.timestamp), h6]
    simp only
    rw [if_neg (by omega : ¬ UINT256 ≤ s + feeAmount), if_pos h8]
  · intro c owner recipients totalValue deadline sig feeAmount hmis
    cases hres : facilitateBulkTransferWithPermit c owner recipients totalValue
        deadline sig feeAmount with
    | error e => rfl
    | ok o =>
      exact absurd (bulk_ok_sum_law c owner recipients totalValue deadline sig
        feeAmount o hres) hmis

/-- C5 witness: the amended theorem applied at the spec's scenario with a
live deadline — `totalValue = 999999` against `990000 + 10000` is rejected
with `InvalidFeeAmount` — and at a sum-law-violating request, whose run is
not successful. -/
theorem C5_witness :
    facilitateBulkTransferWithPermit (baseChain 2000000) 1
        [{ toAddr := 3, amount := 600000 }, { toAddr := 4, amount := 390000 }]
        999999 100 sigA 10000
      = .error (.facil .InvalidFeeAmount) ∧
    isOk (facilitateBulkTransferWithPermit (baseChain 2000000) 1
        [{ toAddr := 3, amount := 600000 }, { toAddr := 4, amount := 390000 }]
        999999 100 sigA 10000) = false :=
  ⟨C5_amended.1 (baseChain 2000000) 1
      [{ toAddr := 3, amount := 600000 }, { toAddr := 4, amount := 390000 }]
      999999 100 sigA 10000 990000
      (by decide) (by decide) (by decide) (by decide) (by decide)
      rfl (by decide) (by decide),
    C5_amended.2 (baseChain 2000000) 1
      [{ toAddr := 3, amount := 600000 }, { toAddr := 4, amount := 390000 }]
      999999 100 sigA 10000 (by decide)⟩

/-- The fee-transfer step can only revert inside the token. -/
theorem feeStep_error_eq (t : TokenState) (spender owner collector fee : Nat)
    (e : Rev) (h : feeStep t spender owner collector fee = .error e) :
    e = .tokenRevert := by
  unfold feeStep at h
  split_ifs at h
  all_goals first
    | exact Except.noConfusion h
    | (split at h
       · injection h with h
         exact h.symm
       · exact Except.noConfusion h)

/-- The recipient-transfer loop can only revert inside the token. -/
theorem doTransfers_error_eq (spender owner : Nat) (rs : List Recipient) :
    ∀ (t : TokenState) (e : Rev),
      doTransfers t spender owner rs = .error e → e = .tokenRevert := by
  induction rs with
  | nil =>
    intro t e h
    exact Except.noConfusion h
  | cons r rs ih =>
    intro t e h
    unfold doTransfers at h
    split at h
    · injection h with h
      exact h.symm
    · split at h
      · rename_i heq
        injection h with h
        exact h ▸ ih _ _ heq
      · exact Except.noConfusion h

/-- The recipient-validation loop only reports a null recipient, a zero
amount, or an arithmetic overflow. -/
theorem checkRecipientsAux_error_cases (rs : List Recipient) :
    ∀ (acc : Nat) (e : Rev), checkRecipientsAux acc rs = .error e →
      e = .facil .InvalidRecipient ∨ e = .facil .InvalidRecipientAmount ∨
        e = .arithOverflow := by
  induction rs with
  | nil =>
    intro acc e h
    exact Except.noConfusion h
  | cons r rs ih =>
    intro acc e h
    unfold checkRecipientsAux at h
    split_ifs at h
    · injection h with h
      exact Or.inl h.symm
    · injection h with h
      exact Or.inr (Or.inl h.symm)
    · exact ih _ _ h
    · injection h with h
      exact Or.inr (Or.inr h.symm)

/-- Facts established by a non-reverting `facilitateTransferWithPermit`
call: every guard passed, the fingerprint was fresh, and the post-state
registry is the pre-state registry with exactly this fingerprint marked. -/
theorem single_ok_facts (c : Chain) (owner toAddr value deadline : Nat)
    (sig : Sig) (feeAmount : Nat) (o : Outcome)
    (h : facilitateTransferWithPermit c owner toAddr value deadline sig
        feeAmount = .ok o) :
    owner ≠ 0 ∧ toAddr ≠ 0 ∧ value ≠ 0 ∧ feeAmount < value ∧
      c.timestamp ≤ deadline ∧
      c.facil.usedPermits
        (PermitHash.single owner c.facil.self value deadline sig) = false ∧
      o.chain.facil.self = c.facil.self ∧
      o.chain.facil.feeCollector = c.facil.feeCollector ∧
      o.chain.timestamp = c.timestamp ∧
      o.chain.facil.usedPermits =
        upd c.facil.usedPermits
          (PermitHash.single owner c.facil.self value deadline sig) true := by
  unfold facilitateTransferWithPermit at h
  split_ifs at h with g1 g2 g3 g4 g5 g6
  split at h
  · exact Except.noConfusion h
  · split at h
    · exact Except.noConfusion h
    · split at h
      · exact Except.noConfusion h
      · injection h with h
        refine ⟨fun e => g1 (Or.inl e), fun e => g1 (Or.inr e), g2,
          by omega, by omega, by simpa using g5, ?_, ?_, ?_, ?_⟩
        all_goals rw [← h]

/-- `facilitateTransferWithPermit` reports `PermitAlreadyUsed` only when
the request's fingerprint is marked used in the pre-state registry. -/
theorem single_replay_only_if (c : Chain) (owner toAddr value deadline : Nat)
    (sig : Sig) (feeAmount : Nat)
    (h : facilitateTransferWithPermit c owner toAddr value deadline sig
        feeAmount = .error (.facil .PermitAlreadyUsed)) :
    c.facil.usedPermits
      (PermitHash.single owner c.facil.self value deadline sig) = true := by
  unfold facilitateTransferWithPermit at h
  split_ifs at h with g1 g2 g3 g4 g5 g6
  all_goals try (injection h with h; exact absurd h (by decide))
  · exact g5
  all_goals (
    split at h
    · injection h with h
      exact absurd h (by decide)
    · split at h
      · rename_i e heq
        injection h with h
        have hfee := feeStep_error_eq _ _ _ _ _ _ heq
        rw [h] at hfee
        exact absurd hfee (by decide)
      · split at h
        · injection h with h
          exact absurd h (by decide)
        · exact Except.noConfusion h)

/-- `facilitateBulkTransferWithPermit` can never report `PermitAlreadyUsed`:
the standard-permit bulk entry point contains no replay check at all. -/
theorem bulkStd_no_replay (c : Chain) (owner : Nat)
    (recipients : List Recipient) (totalValue deadline : Nat) (sig : Sig)
    (feeAmount : Nat) :
    facilitateBulkTransferWithPermit c owner recipients totalValue deadline
        sig feeAmount ≠ .error (.facil .PermitAlreadyUsed) := by
  intro h
  unfold facilitateBulkTransferWithPermit at h
  split_ifs at h
  all_goals try (injection h with h; exact absurd h (by decide))
  all_goals (
    split at h
    case _ e heq =>
      injection h with h
      rcases checkRecipientsAux_error_cases recipients 0 e heq with h1 | h1 | h1 <;>
        (rw [h] at h1; exact absurd h1 (by decide))
    case _ s hs =>
      split_ifs at h
      all_goals try (injection h with h; exact absurd h (by decide))
      all_goals (
        split at h
        · injection h with h
          exact absurd h (by decide)
        · split at h
          case _ e heq2 =>
            injection h with h
            have hfee := feeStep_error_eq _ _ _ _ _ _ heq2
            rw [h] at hfee
            exact absurd hfee (by decide)
          case _ p heq2 =>
            split at h
            · rename_i e heq3
              injection h with h
              have hdt := doTransfers_error_eq _ _ recipients _ _ heq3
              rw [h] at hdt
              exact absurd hdt (by decide)
            · exact Except.noConfusion h))

/-- A non-reverting `facilitateBulkTransferWithPermit` call leaves the
replay registry untouched: no fingerprint is recorded for standard-permit
bulk transfers. -/
theorem bulkStd_ok_preserves_registry (c : Chain) (owner : Nat)
    (recipients : List Recipient) (totalValue deadline : Nat) (sig : Sig)
    (feeAmount : Nat) (o : Outcome)
    (h : facilitateBulkTransferWithPermit c owner recipients totalValue
        deadline sig feeAmount = .ok o) :
    o.chain.facil.usedPermits = c.facil.usedPermits := by
  unfold facilitateBulkTransferWithPermit at h
  split_ifs at h
  all_goals try exact Except.noConfusion h
  all_goals (
    split at h
    case _ e heq => exact Except.noConfusion h
    case _ s hs =>
      split_ifs at h
      all_goals try exact Except.noConfusion h
      all_goals (
        split at h
        · exact Except.noConfusion h
        · split at h
          case _ e heq2 => exact Except.noConfusion h
          case _ p heq2 =>
            split at h
            · exact Except.noConfusion h
            · injection h with h
              rw [← h]))

/-- C1 counterexample: the claim fails for bulk requests under the standard
permit flavour, which records no fingerprint.  A well-formed bulk request
(recipients `[(3,600000),(4,390000)]`, fee 10000, total 1000000, owner
balance 2000000) executes successfully; validating the identical request a
second time, from the post-state of the first call, fails with
`InvalidPermitSignature` (the token nonce advanced), not with
`PermitAlreadyUsed`. -/
theorem C1_counterexample :
    isOk (facilitateBulkTransferWithPermit (baseChain 2000000) 1
        [{ toAddr := 3, amount := 600000 }, { toAddr := 4, amount := 390000 }]
        1000000 100 sigA 10000) = true ∧
    facilitateBulkTransferWithPermit
        (chainOf (facilitateBulkTransferWithPermit (baseChain 2000000) 1
            [{ toAddr := 3, amount := 600000 },
              { toAddr := 4, amount := 390000 }]
            1000000 100 sigA 10000) (baseChain 2000000)) 1
        [{ toAddr := 3, amount := 600000 }, { toAddr := 4, amount := 390000 }]
        1000000 100 sigA 10000
      = .error (.facil .InvalidPermitSignature) ∧
    facilitateBulkTransferWithPermit
        (chainOf (facilitateBulkTransferWithPermit (baseChain 2000000) 1
            [{ toAddr := 3, amount := 600000 },
              { toAddr := 4, amount := 390000 }]
            1000000 100 sigA 10000) (baseChain 2000000)) 1
        [{ toAddr := 3, amount := 600000 }, { toAddr := 4, amount := 390000 }]
        1000000 100 sigA 10000
      ≠ .error (.facil .PermitAlreadyUsed) := by
  have h2 : facilitateBulkTransferWithPermit
      (chainOf (facilitateBulkTransferWithPermit (baseChain 2000000) 1
          [{ toAddr := 3, amount := 600000 },
            { toAddr := 4, amount := 390000 }]
          1000000 100 sigA 10000) (baseChain 2000000)) 1
      [{ toAddr := 3, amount := 600000 }, { toAddr := 4, amount := 390000 }]
      1000000 100 sigA 10000
      = .error (.facil .InvalidPermitSignature) := by rfl
  refine ⟨rfl, h2, ?_⟩
  rw [h2]
  intro hc
  injection hc with hc
  exact absurd hc (by decide)

/-- C1 (amended): for `facilitateTransferWithPermit` the claim holds as
stated: after a successful call, (i) the identical request is rejected
with `PermitAlreadyUsed`; (ii) and (iii) changing only the deadline or
only the value yields a different fingerprint which (if not consumed
before) is not rejected as a replay.  For bulk requests it holds only for
the non-standard flavour; (iv) the standard bulk entry point
`facilitateBulkTransferWithPermit` computes no fingerprint at all: it can
never report `PermitAlreadyUsed` and a successful call leaves the replay
registry unchanged. -/
theorem C1_amended :
    (∀ (c : Chain) (owner toAddr value deadline : Nat) (sig : Sig)
        (feeAmount : Nat) (o : Outcome),
        facilitateTransferWithPermit c owner toAddr value deadline sig
            feeAmount = .ok o →
        facilitateTransferWithPermit o.chain owner toAddr value deadline sig
            feeAmount = .error (.facil .PermitAlreadyUsed)) ∧
    (∀ (c : Chain) (owner toAddr value deadline : Nat) (sig : Sig)
        (feeAmount : Nat) (o : Outcome) (deadline2 : Nat),
        facilitateTransferWithPermit c owner toAddr value deadline sig
            feeAmount = .ok o →
        deadline2 ≠ deadline →
        c.facil.usedPermits
            (PermitHash.single owner c.facil.self value deadline2 sig) = false →
        PermitHash.single owner c.facil.self value deadline2 sig ≠
            PermitHash.single owner c.facil.self value deadline sig ∧
        facilitateTransferWithPermit o.chain owner toAddr value deadline2 sig
            feeAmount ≠ .error (.facil .PermitAlreadyUsed)) ∧
    (∀ (c : Chain) (owner toAddr value deadline : Nat) (sig : Sig)
        (feeAmount : Nat) (o : Outcome) (value2 : Nat),
        facilitateTransferWithPermit c owner toAddr value deadline sig
            feeAmount = .ok o →
        value2 ≠ value →
        c.facil.usedPermits
            (PermitHash.single owner c.facil.self value2 deadline sig) = false →
        PermitHash.single owner c.facil.self value2 deadline sig ≠
            PermitHash.single owner c.facil.self value deadline sig ∧
        facilitateTransferWithPermit o.chain owner toAddr value2 deadline sig
            feeAmount ≠ .error (.facil .PermitAlreadyUsed)) ∧
    (∀ (c : Chain) (owner : Nat) (recipients : List Recipient)
        (totalValue deadline : Nat) (sig : Sig) (feeAmount : Nat),
        facilitateBulkTransferWithPermit c owner recipients totalValue
            deadline sig feeAmount ≠ .error (.facil .PermitAlreadyUsed)) ∧
    (∀ (c : Chain) (owner : Nat) (recipients : List Recipient)
        (totalValue deadline : Nat) (sig : Sig) (feeAmount : Nat)
        (o : Outcome),
        facilitateBulkTransferWithPermit c owner recipients totalValue
            deadline sig feeAmount = .ok o →
        o.chain.facil.usedPermits = c.facil.usedPermits) := by
  refine ⟨?_, ?_, ?_, ?_, ?_⟩
  · intro c owner toAddr value deadline sig feeAmount o h
    obtain ⟨h1, h2, h3, h4, h5, _, hself, _, ht, hused⟩ :=
      single_ok_facts c owner toAddr value deadline sig feeAmount o h
    unfold facilitateTransferWithPermit
    rw [if_neg (fun hc => hc.elim h1 h2), if_neg h3,
      if_neg (by omega : ¬ value ≤ feeAmount),
      if_neg (by omega : ¬ deadline < o.chain.timestamp),
      if_pos (by rw [hself, hused]; simp [upd])]
  · intro c owner toAddr value deadline sig feeAmount o deadline2 h hdl hfresh
    obtain ⟨h1, h2, h3, h4, h5, _, hself, _, ht, hused⟩ :=
      single_ok_facts c owner toAddr value deadline sig feeAmount o h
    have hphne : PermitHash.single owner c.facil.self value deadline2 sig ≠
        PermitHash.single owner c.facil.self value deadline sig := by
      intro hph
      injection hph
      omega
    refine ⟨hphne, ?_⟩
    intro hc
    have hm := single_replay_only_if _ _ _ _ _ _ _ hc
    rw [hself, hused] at hm
    simp only [upd] at hm
    rw [if_neg hphne, hfresh] at hm
    exact Bool.false_ne_true hm
  · intro c owner toAddr value deadline sig feeAmount o value2 h hvl hfresh
    obtain ⟨h1, h2, h3, h4, h5, _, hself, _, ht, hused⟩ :=
      single_ok_facts c owner toAddr value deadline sig feeAmount o h
    have hphne : PermitHash.single owner c.facil.self value2 deadline sig ≠
        PermitHash.single owner c.facil.self value deadline sig := by
      intro hph
      injection hph
      omega
    refine ⟨hphne, ?_⟩
    intro hc
    have hm := single_replay_only_if _ _ _ _ _ _ _ hc
    rw [hself, hused] at hm
    simp only [upd] at hm
    rw [if_neg hphne, hfresh] at hm
    exact Bool.false_ne_true hm
  · intro c owner recipients totalValue deadline sig feeAmount
    exact bulkStd_no_replay c owner recipients totalValue deadline sig feeAmount
  · intro c owner recipients totalValue deadline sig feeAmount o h
    exact bulkStd_ok_preserves_registry c owner recipients totalValue deadline
      sig feeAmount o h

/-- C1 witness: the amended theorem applied at concrete requests — the
identical retry of a successful single transfer is rejected as a replay;
retries with only the deadline changed (100 to 200) or only the value
changed (1000000 to 500000) are not rejected as replays; and a concrete
bulk call is never rejected as a replay and preserves the registry. -/
theorem C1_witness :
    facilitateTransferWithPermit
        (chainOf (facilitateTransferWithPermit (baseChain 2000000) 1 3 1000000
            100 sigA 10000) (baseChain 2000000)) 1 3 1000000 100 sigA 10000
      = .error (.facil .PermitAlreadyUsed) ∧
    facilitateTransferWithPermit
        (chainOf (facilitateTransferWithPermit (baseChain 2000000) 1 3 1000000
            100 sigA 10000) (baseChain 2000000)) 1 3 1000000 200 sigA 10000
      ≠ .error (.facil .PermitAlreadyUsed) ∧
    facilitateTransferWithPermit
        (chainOf (facilitateTransferWithPermit (baseChain 2000000) 1 3 1000000
            100 sigA 10000) (baseChain 2000000)) 1 3 500000 100 sigA 10000
      ≠ .error (.facil .PermitAlreadyUsed) ∧
    facilitateBulkTransferWithPermit (baseChain 2000000) 1
        [{ toAddr := 3, amount := 990000 }] 1000000 100 sigA 10000
      ≠ .error (.facil .PermitAlreadyUsed) ∧
    (chainOf (facilitateBulkTransferWithPermit (baseChain 2000000) 1
        [{ toAddr := 3, amount := 990000 }] 1000000 100 sigA 10000)
        (baseChain 2000000)).facil.usedPermits
      = (baseChain 2000000).facil.usedPermits := by
  cases hrun : facilitateTransferWithPermit (baseChain 2000000) 1 3 1000000 100
      sigA 10000 with
  | error e =>
    have hok : isOk (facilitateTransferWithPermit (baseChain 2000000) 1 3
        1000000 100 sigA 10000) = true := rfl
    rw [hrun] at hok
    exact Bool.noConfusion hok
  | ok o =>
    cases hbulk : facilitateBulkTransferWithPermit (baseChain 2000000) 1
        [{ toAddr := 3, amount := 990000 }] 1000000 100 sigA 10000 with
    | error e =>
      have hok : isOk (facilitateBulkTransferWithPermit (baseChain 2000000) 1
          [{ toAddr := 3, amount := 990000 }] 1000000 100 sigA 10000)
          = true := rfl
      rw [hbulk] at hok
      exact Bool.noConfusion hok
    | ok o2 =>
      simp only [chainOf]
      exact ⟨C1_amended.1 _ 1 3 1000000 100 sigA 10000 o hrun,
        (C1_amended.2.1 _ 1 3 1000000 100 sigA 10000 o 200 hrun
          (by decide) rfl).2,
        (C1_amended.2.2.1 _ 1 3 1000000 100 sigA 10000 o 500000 hrun
          (by decide) rfl).2,
        hbulk ▸ C1_amended.2.2.2.1 (baseChain 2000000) 1
          [{ toAddr := 3, amount := 990000 }] 1000000 100 sigA 10000,
        C1_amended.2.2.2.2 (baseChain 2000000) 1
          [{ toAddr := 3, amount := 990000 }] 1000000 100 sigA 10000 o2 hbulk⟩

/-- A successful fee step transfers exactly the fee to the collector, and
nothing when the fee is zero. -/
theorem feeStep_ok_trace (t : TokenState) (spender owner collector fee : Nat)
    (t2 : TokenState) (tr : List Transfer)
    (h : feeStep t spender owner collector fee = .ok (t2, tr)) :
    tr = if fee = 0 then []
      else [{ src := owner, dst := collector, amount := fee }] := by
  unfold feeStep at h
  split_ifs at h with hf
  · split at h
    · exact Except.noConfusion h
    · injection h with h
      cases h
      rw [if_neg (by omega)]
  · injection h with h
    cases h
    rw [if_pos (by omega)]

/-- A successful recipient loop transfers each recipient's exact amount
from the owner, in list order. -/
theorem doTransfers_ok_trace (spender owner : Nat) (rs : List Recipient) :
    ∀ (t t2 : TokenState) (tr : List Transfer),
      doTransfers t spender owner rs = .ok (t2, tr) →
      tr = rs.map
        (fun r => { src := owner, dst := r.toAddr, amount := r.amount }) := by
  induction rs with
  | nil =>
    intro t t2 tr h
    injection h with h
    cases h
    rfl
  | cons r rs ih =>
    intro t t2 tr h
    unfold doTransfers at h
    split at h
    · exact Except.noConfusion h
    · split at h
      · exact Except.noConfusion h
      · rename_i heq
        injection h with h
        cases h
        simp only [List.map_cons, List.cons.injEq, true_and]
        exact ih _ _ _ heq

/-- C6 (confirmed): on success, the single entry point moves the fee to the
fee collector first (skipping the movement entirely when the fee is zero)
and then exactly `value - feeAmount` to the recipient; the bulk entry point
moves the fee first (skipped if zero) and then each recipient's exact
amount in list order. -/
theorem C6_transfer_order :
    (∀ (c : Chain) (owner toAddr value deadline : Nat) (sig : Sig)
        (feeAmount : Nat) (o : Outcome),
        facilitateTransferWithPermit c owner toAddr value deadline sig
            feeAmount = .ok o →
        o.trace =
          (if feeAmount = 0 then []
            else [{ src := owner, dst := c.facil.feeCollector,
                    amount := feeAmount }]) ++
            [{ src := owner, dst := toAddr, amount := value - feeAmount }]) ∧
    (∀ (c : Chain) (owner : Nat) (recipients : List Recipient)
        (totalValue deadline : Nat) (sig : Sig) (feeAmount : Nat)
        (o : Outcome),
        facilitateBulkTransferWithPermit c owner recipients totalValue
            deadline sig feeAmount = .ok o →
        o.trace =
          (if feeAmount = 0 then []
            else [{ src := owner, dst := c.facil.feeCollector,
                    amount := feeAmount }]) ++
            recipients.map
              (fun r => { src := owner, dst := r.toAddr,
                          amount := r.amount })) := by
  constructor
  · intro c owner toAddr value deadline sig feeAmount o h
    unfold facilitateTransferWithPermit at h
    split_ifs at h
    all_goals try exact Except.noConfusion h
    split at h
    · exact Except.noConfusion h
    · split at h
      · exact Except.noConfusion h
      · rename_i heq
        split at h
        · exact Except.noConfusion h
        · injection h with h
          rw [← h]
          rw [feeStep_ok_trace _ _ _ _ _ _ _ heq]
  · intro c owner recipients totalValue deadline sig feeAmount o h
    unfold facilitateBulkTransferWithPermit at h
    split_ifs at h
    all_goals try exact Except.noConfusion h
    all_goals (
      split at h
      case _ e heq => exact Except.noConfusion h
      case _ s hs =>
        split_ifs at h
        all_goals try exact Except.noConfusion h
        all_goals (
          split at h
          · exact Except.noConfusion h
          · split at h
            case _ e heq2 => exact Except.noConfusion h
            case _ p heq2 =>
              split at h
              · exact Except.noConfusion h
              · rename_i heq3
                injection h with h
                rw [← h]
                rw [feeStep_ok_trace _ _ _ _ _ _ _ heq2,
                  doTransfers_ok_trace _ _ recipients _ _ _ heq3]))

/-- C6 witness: the transfer-order theorem applied at the spec's concrete
scenario — fee 10000 moves to the collector (address 2) first, then 990000
to the single recipient; in the bulk case 600000 and then 390000 follow in
list order. -/
theorem C6_witness :
    traceOf (facilitateTransferWithPermit (baseChain 2000000) 1 3 1000000 100
        sigA 10000)
      = [{ src := 1, dst := 2, amount := 10000 },
          { src := 1, dst := 3, amount := 990000 }] ∧
    traceOf (facilitateBulkTransferWithPermit (baseChain 2000000) 1
        [{ toAddr := 3, amount := 600000 }, { toAddr := 4, amount := 390000 }]
        1000000 100 sigA 10000)
      = [{ src := 1, dst := 2, amount := 10000 },
          { src := 1, dst := 3, amount := 600000 },
          { src := 1, dst := 4, amount := 390000 }] := by
  cases hrun : facilitateTransferWithPermit (baseChain 2000000) 1 3 1000000 100
      sigA 10000 with
  | error e =>
    have hok : isOk (facilitateTransferWithPermit (baseChain 2000000) 1 3
        1000000 100 sigA 10000) = true := rfl
    rw [hrun] at hok
    exact Bool.noConfusion hok
  | ok o =>
    cases hbulk : facilitateBulkTransferWithPermit (baseChain 2000000) 1
        [{ toAddr := 3, amount := 600000 }, { toAddr := 4, amount := 390000 }]
        1000000 100 sigA 10000 with
    | error e =>
      have hok : isOk (facilitateBulkTransferWithPermit (baseChain 2000000) 1
          [{ toAddr := 3, amount := 600000 },
            { toAddr := 4, amount := 390000 }]
          1000000 100 sigA 10000) = true := rfl
      rw [hbulk] at hok
      exact Bool.noConfusion hok
    | ok o2 =>
      simp only [traceOf]
      rw [C6_transfer_order.1 _ 1 3 1000000 100 sigA 10000 o hrun,
        C6_transfer_order.2 _ 1
          [{ toAddr := 3, amount := 600000 },
            { toAddr := 4, amount := 390000 }]
          1000000 100 sigA 10000 o2 hbulk]
      exact ⟨rfl, rfl⟩

/-- C7 counterexample: a bulk request with 51 recipients — more than the
frontend's 50-row cap — is not rejected at all: it passes every validation
step and executes its transfers (51 x 1000 with zero fee against a
2000000 balance). -/
theorem C7_counterexample :
    isOk (facilitateBulkTransferWithPermit (baseChain 2000000) 1
        (List.replicate 51 { toAddr := 3, amount := 1000 }) 51000 100
        { signer := 1, spender := 100, value := 51000, nonce := 0,
          deadline := 100 } 0) = true := by
  rfl

/-- C7 (amended): the contract enforces no maximum batch size: the only
list-size validation is the non-emptiness check (`EmptyRecipientList`),
and even a 60-recipient request passes validation and executes; the
50-recipient limit exists only in the frontend form handler
`addRecipient`, which keeps the composed list at most 50 rows and leaves
a full list unchanged. -/
theorem C7_amended :
    (∀ (c : Chain) (owner : Nat) (totalValue deadline : Nat) (sig : Sig)
        (feeAmount : Nat),
        owner ≠ 0 →
        facilitateBulkTransferWithPermit c owner [] totalValue deadline sig
            feeAmount = .error (.facil .EmptyRecipientList)) ∧
    isOk (facilitateBulkTransferWithPermit (baseChain 2000000) 1
        (List.replicate 60 { toAddr := 3, amount := 1000 }) 60000 100
        { signer := 1, spender := 100, value := 60000, nonce := 0,
          deadline := 100 } 0) = true ∧
    (∀ (recipients : List Recipient) (r : Recipient),
        recipients.length ≤ 50 → (addRecipient recipients r).length ≤ 50) ∧
    (∀ (recipients : List Recipient) (r : Recipient),
        50 ≤ recipients.length → addRecipient recipients r = recipients) := by
  refine ⟨?_, rfl, ?_, ?_⟩
  · intro c owner totalValue deadline sig feeAmount h1
    unfold facilitateBulkTransferWithPermit
    rw [if_neg h1, if_pos rfl]
  · intro recipients r hle
    unfold addRecipient
    split_ifs with hlen
    · simp only [List.length_append, List.length_cons, List.length_nil]
      omega
    · exact hle
  · intro recipients r hge
    unfold addRecipient
    rw [if_neg (by omega)]

/-- C7 witness: the amended theorem applied concretely — the empty list is
rejected with `EmptyRecipientList`, a 50-row form stays at 50 rows after
another `addRecipient`, and a 49-row form grows to at most 50. -/
theorem C7_witness :
    facilitateBulkTransferWithPermit (baseChain 2000000) 1 [] 1000000 100
        sigA 10000 = .error (.facil .EmptyRecipientList) ∧
    (addRecipient (List.replicate 50 { toAddr := 3, amount := 1000 })
        { toAddr := 4, amount := 2000 }).length ≤ 50 ∧
    addRecipient (List.replicate 50 { toAddr := 3, amount := 1000 })
        { toAddr := 4, amount := 2000 }
      = List.replicate 50 { toAddr := 3, amount := 1000 } :=
  ⟨C7_amended.1 (baseChain 2000000) 1 1000000 100 sigA 10000 (by decide),
    C7_amended.2.2.1 (List.replicate 50 { toAddr := 3, amount := 1000 })
      { toAddr := 4, amount := 2000 } (by simp),
    C7_amended.2.2.2 (List.replicate 50 { toAddr := 3, amount := 1000 })
      { toAddr := 4, amount := 2000 } (by simp)⟩

/-- C10 (confirmed): the replay fingerprint of
`facilitateBulkTransferWithNonStandardPermit` packs only the owner, the
contract address, the total value, the deadline, the owner's current nonce
and the recipient count — so requests agreeing on those six inputs share
the fingerprint whatever their recipients, amount split or signature — and
whenever that fingerprint is already marked in the registry, a request
passing the earlier validation steps is rejected with `PermitAlreadyUsed`
(before the signature is ever examined). -/
theorem C10_fingerprint :
    (∀ (c : Chain) (owner totalValue deadline : Nat)
        (recipients recipients2 : List Recipient),
        recipients.length = recipients2.length →
        bulkNonStdFingerprint c owner totalValue deadline recipients.length =
          bulkNonStdFingerprint c owner totalValue deadline
            recipients2.length) ∧
    (∀ (c : Chain) (owner : Nat) (recipients : List Recipient)
        (totalValue deadline : Nat) (sig : Sig) (feeAmount s : Nat),
        owner ≠ 0 → recipients ≠ [] → totalValue ≠ 0 →
        feeAmount < totalValue → c.timestamp ≤ deadline →
        checkRecipientsAux 0 recipients = .ok s →
        s + feeAmount < UINT256 →
        totalValue = s + feeAmount →
        c.facil.usedPermits
            (bulkNonStdFingerprint c owner totalValue deadline
              recipients.length) = true →
        facilitateBulkTransferWithNonStandardPermit c owner recipients
            totalValue deadline sig feeAmount
          = .error (.facil .PermitAlreadyUsed)) := by
  constructor
  · intro c owner totalValue deadline recipients recipients2 hlen
    rw [hlen]
  · intro c owner recipients totalValue deadline sig feeAmount s
      h1 h2 h3 h4 h5 h6 h7 h8 h9
    unfold facilitateBulkTransferWithNonStandardPermit
    rw [if_neg h1, if_neg h2, if_neg h3,
      if_neg (by omega : ¬ totalValue ≤ feeAmount),
      if_neg (by omega : ¬ deadline < c.timestamp), h6]
    simp only
    rw [if_neg (by omega : ¬ UINT256 ≤ s + feeAmount),
      if_neg (by omega : ¬ totalValue ≠ s + feeAmount), if_pos h9]

/-- C10 witness: two bulk requests over the same six fingerprint inputs
(owner 1, contract 100, total 10, deadline 100, nonce 0, two recipients)
with different recipient addresses, different amount splits and different
signatures: their fingerprints coincide, and with that fingerprint marked
used both are rejected with `PermitAlreadyUsed`. -/
theorem C10_witness :
    bulkNonStdFingerprint (baseChain 2000000) 1 10 100
        ([{ toAddr := 3, amount := 4 }, { toAddr := 4, amount := 6 }] :
          List Recipient).length =
      bulkNonStdFingerprint (baseChain 2000000) 1 10 100
        ([{ toAddr := 7, amount := 9 }, { toAddr := 8, amount := 1 }] :
          List Recipient).length ∧
    facilitateBulkTransferWithNonStandardPermit
        { baseChain 2000000 with
          facil := { self := 100, feeCollector := 2,
                     usedPermits :=
                       upd (fun _ => false)
                         (PermitHash.bulkNonce 1 100 10 100 0 2) true } } 1
        [{ toAddr := 3, amount := 4 }, { toAddr := 4, amount := 6 }]
        10 100 sigA 0
      = .error (.facil .PermitAlreadyUsed) ∧
    facilitateBulkTransferWithNonStandardPermit
        { baseChain 2000000 with
          facil := { self := 100, feeCollector := 2,
                     usedPermits :=
                       upd (fun _ => false)
                         (PermitHash.bulkNonce 1 100 10 100 0 2) true } } 1
        [{ toAddr := 7, amount := 9 }, { toAddr := 8, amount := 1 }]
        10 100 { signer := 1, spender := 100, value := 10, nonce := 0,
                 deadline := 100 } 0
      = .error (.facil .PermitAlreadyUsed) :=
  ⟨C10_fingerprint.1 (baseChain 2000000) 1 10 100
      [{ toAddr := 3, amount := 4 }, { toAddr := 4, amount := 6 }]
      [{ toAddr := 7, amount := 9 }, { toAddr := 8, amount := 1 }] rfl,
    C10_fingerprint.2 _ 1
      [{ toAddr := 3, amount := 4 }, { toAddr := 4, amount := 6 }]
      10 100 sigA 0 10
      (by decide) (by decide) (by decide) (by decide) (by decide)
      rfl (by decide) (by decide) rfl,
    C10_fingerprint.2 _ 1
      [{ toAddr := 7, amount := 9 }, { toAddr := 8, amount := 1 }]
      10 100 { signer := 1, spender := 100, value := 10, nonce := 0,
               deadline := 100 } 0 10
      (by decide) (by decide) (by decide) (by decide) (by decide)
      rfl (by decide) (by decide) rfl⟩

/-- Characters surviving the sign strip still contain any non-dash input
character. -/
theorem splitSign_mem (l : List Char) (c : Char) (hc : c ∈ l)
    (hne : c ≠ '-') : c ∈ (splitSign l).2 := by
  cases l with
  | nil => exact absurd hc (List.not_mem_nil c)
  | cons a as =>
    simp only [splitSign]
    split_ifs with ha
    · rcases List.mem_cons.mp hc with h | h
      · exact absurd (h.trans ha) hne
      · exact h
    · exact hc

/-- A string accepted by the unsigned matcher consists of digits and at
most one dot. -/
theorem matchDigits_chars (rest : List Char) (w f : List Char)
    (h : matchDigits rest = some (w, f)) :
    ∀ c ∈ rest, isDigit c = true ∨ c = '.' := by
  intro c hc
  rw [← List.takeWhile_append_dropWhile isDigit rest] at hc
  rcases List.mem_append.mp hc with hmem | hmem
  · exact Or.inl (List.mem_takeWhile_imp hmem)
  · unfold matchDigits at h
    split at h
    · rename_i hdrop
      rw [hdrop] at hmem
      exact absurd hmem (List.not_mem_nil c)
    · rename_i fr hdrop
      rw [hdrop] at hmem
      rcases List.mem_cons.mp hmem with hceq | hmem2
      · exact Or.inr hceq
      · split_ifs at h with hall
        exact Or.inl (List.all_eq_true.mp hall c hmem2)
    · exact Option.noConfusion h

/-- Any input containing a character that is neither a digit, a dot nor a
dash fails the regex, so `parseUnits` throws. -/
theorem parseUnits_none_badChar (s : String) (p : Nat) (c : Char)
    (hc : c ∈ s.data) (hbad : isDigit c = false) (hdot : c ≠ '.')
    (hdash : c ≠ '-') :
    parseUnits s p = none := by
  unfold parseUnits
  cases hmd : matchDecimal s.data with
  | none => rfl
  | some r =>
    exfalso
    unfold matchDecimal at hmd
    cases hmm : matchDigits (splitSign s.data).2 with
    | none =>
      rw [hmm] at hmd
      exact Option.noConfusion hmd
    | some wf =>
      have hcs := splitSign_mem s.data c hc hdash
      rcases matchDigits_chars _ wf.1 wf.2 (by rw [hmm]) c hcs with hd | hd
      · rw [hbad] at hd
        exact Bool.noConfusion hd
      · exact hdot hd

/-- The digit matcher splits a digits-dot-digits string exactly at the
dot. -/
theorem takeWhile_append_dot (w f : List Char) (hw : w.all isDigit = true) :
    (w ++ '.' :: f).takeWhile isDigit = w ∧
    (w ++ '.' :: f).dropWhile isDigit = '.' :: f := by
  induction w with
  | nil => constructor <;> rfl
  | cons a w ih =>
    simp only [List.all_cons, Bool.and_eq_true] at hw
    obtain ⟨ha, hw⟩ := hw
    have hi := ih hw
    constructor
    · simp only [List.cons_append, List.takeWhile_cons, ha, if_true, hi.1]
    · simp only [List.cons_append, List.dropWhile_cons, ha, if_true, hi.2]

/-- The sign strip is the identity on strings not starting with a dash. -/
theorem splitSign_no_dash (l : List Char)
    (hl : ∀ c, l.head? = some c → c ≠ '-') :
    splitSign l = (false, l) := by
  cases l with
  | nil => rfl
  | cons a as =>
    simp only [splitSign]
    rw [if_neg (hl a rfl)]

/-- The unsigned matcher recovers the whole and fractional digit groups of
a digits-dot-digits string. -/
theorem matchDigits_of_digits (w f : List Char) (hw : w.all isDigit = true)
    (hf : f.all isDigit = true) :
    matchDigits (w ++ '.' :: f) = some (w, f) := by
  unfold matchDigits
  rw [(takeWhile_append_dot w f hw).2, (takeWhile_append_dot w f hw).1]
  simp [hf]

/-- A digits-dot-digits string never starts with a dash. -/
theorem head_ne_dash_of_digits (w f : List Char) (hw : w.all isDigit = true) :
    ∀ c, (w ++ '.' :: f).head? = some c → c ≠ '-' := by
  intro c hc
  cases w with
  | nil =>
    simp only [List.nil_append, List.head?_cons, Option.some.injEq] at hc
    rw [← hc]
    decide
  | cons a w2 =>
    simp only [List.cons_append, List.head?_cons, Option.some.injEq] at hc
    simp only [List.all_cons, Bool.and_eq_true] at hw
    intro hdash
    rw [hc, hdash] at hw
    exact absurd hw.1 (by decide)

/-- The full matcher on a digits-dot-digits string. -/
theorem matchDecimal_of_digits (w f : List Char) (hw : w.all isDigit = true)
    (hf : f.all isDigit = true) :
    matchDecimal (w ++ '.' :: f) = some (false, w, f) := by
  unfold matchDecimal
  rw [splitSign_no_dash _ (head_ne_dash_of_digits w f hw)]
  simp only [matchDigits_of_digits w f hw hf]

/-- More fractional digits than the precision, with at least one nonzero
excess digit, make `parseUnits` throw a numeric fault (`none`); all-zero
excess digits, by contrast, are truncated by the source. -/
theorem parseUnits_none_excess (p : Nat) (w f : List Char)
    (hw : w.all isDigit = true) (hf : f.all isDigit = true)
    (hexc : (f.drop p).any (fun c => c != '0') = true) :
    parseUnits (String.mk (w ++ '.' :: f)) p = none := by
  have hfp : p < f.length := by
    by_contra hle
    push_neg at hle
    rw [List.drop_eq_nil_of_le hle] at hexc
    exact Bool.noConfusion hexc
  unfold parseUnits
  have hd : (String.mk (w ++ '.' :: f)).data = w ++ '.' :: f := rfl
  rw [hd, matchDecimal_of_digits w f hw hf]
  simp only
  rw [if_neg (by omega : ¬ w.length + f.length = 0)]
  rw [Nat.sub_eq_zero_of_le (le_of_lt hfp), List.replicate_zero,
    List.append_nil]
  obtain ⟨c, hcmem, hcne⟩ := List.any_eq_true.mp hexc
  rw [if_neg ?hall]
  case hall =>
    intro hall
    have hc0 : (c == '0') = true := List.all_eq_true.mp hall c hcmem
    rw [beq_iff_eq] at hc0
    rw [bne_iff_ne] at hcne
    exact hcne hc0

/-- A leading dash does not make `parseUnits` fail: whatever parses to `v`
without a sign parses to `-v` with one. -/
theorem parseUnits_neg_accepts (s : String) (p : Nat) (v : Int)
    (hhead : ∀ c, s.data.head? = some c → c ≠ '-')
    (h : parseUnits s p = some v) :
    0 ≤ v ∧ parseUnits (String.mk ('-' :: s.data)) p = some (-v) := by
  have hss : splitSign s.data = (false, s.data) := splitSign_no_dash _ hhead
  have hss2 : splitSign ('-' :: s.data) = (true, s.data) := by
    simp [splitSign]
  have hafalse : ∀ m : Nat, applySign false m = (m : Int) := fun m => rfl
  have hatrue : ∀ m : Nat, applySign true m = -(m : Int) := fun m => rfl
  unfold parseUnits at h ⊢
  have hd1 : (String.mk ('-' :: s.data)).data = '-' :: s.data := rfl
  rw [hd1]
  unfold matchDecimal at h ⊢
  rw [hss] at h
  rw [hss2]
  cases hmm : matchDigits s.data with
  | none =>
    simp only [hmm] at h
    exact Option.noConfusion h
  | some wf =>
    obtain ⟨w, f⟩ := wf
    simp only [hmm] at h ⊢
    split_ifs at h with c1 c2 c3
    injection h with h
    rw [hafalse] at c3 h
    constructor
    · omega
    · rw [if_neg c1, if_pos c2, hatrue]
      rw [if_pos (by constructor <;> omega)]
      congr 1
      omega

/-- C8 counterexample: `formatUSDCAmount` does not fail with
`MalformedAmount` on any of the three claimed input classes.  A non-numeric
input and an input with a nonzero seventh fractional digit both make
`ethers.parseUnits` throw, but the wrapper catches the error and silently
substitutes the default result `"0"`; a negative input does not fail at
all — it is accepted and converted to a negative integer string. -/
theorem C8_counterexample :
    formatUSDCAmount "abc" 6 = "0" ∧
    formatUSDCAmount "1.2345678" 6 = "0" ∧
    formatUSDCAmount "-1" 6 = "-1000000" := by
  refine ⟨rfl, rfl, rfl⟩

/-- C8 (amended): `formatUSDCAmount` never throws `MalformedAmount`.  On
input containing a character that is not a digit, a dot or a dash, and on
input whose fractional digits beyond the precision contain a nonzero
digit, the underlying `ethers.parseUnits` throws and the wrapper
substitutes the default string `"0"`.  A negative input is not rejected:
whatever parses to `v` unsigned parses to `-v` with a leading dash, and
the wrapper returns the negative integer string. -/
theorem C8_amended :
    (∀ (s : String) (p : Nat) (c : Char),
        c ∈ s.data → isDigit c = false → c ≠ '.' → c ≠ '-' →
        parseUnits s p = none ∧ formatUSDCAmount s p = "0") ∧
    (∀ (p : Nat) (w f : List Char),
        w.all isDigit = true → f.all isDigit = true →
        (f.drop p).any (fun c => c != '0') = true →
        parseUnits (String.mk (w ++ '.' :: f)) p = none ∧
        formatUSDCAmount (String.mk (w ++ '.' :: f)) p = "0") ∧
    (∀ (s : String) (p : Nat) (v : Int),
        (∀ c, s.data.head? = some c → c ≠ '-') →
        parseUnits s p = some v →
        0 ≤ v ∧ parseUnits (String.mk ('-' :: s.data)) p = some (-v) ∧
          formatUSDCAmount (String.mk ('-' :: s.data)) p
            = intToString (-v)) := by
  refine ⟨?_, ?_, ?_⟩
  · intro s p c hc hbad hdot hdash
    have hnone := parseUnits_none_badChar s p c hc hbad hdot hdash
    refine ⟨hnone, ?_⟩
    simp only [formatUSDCAmount]
    rw [hnone]
    rfl
  · intro p w f hw hf hexc
    have hnone := parseUnits_none_excess p w f hw hf hexc
    refine ⟨hnone, ?_⟩
    simp only [formatUSDCAmount]
    rw [hnone]
    rfl
  · intro s p v hhead h
    obtain ⟨hv, hneg⟩ := parseUnits_neg_accepts s p v hhead h
    refine ⟨hv, hneg, ?_⟩
    simp only [formatUSDCAmount]
    rw [hneg]
    rfl

/-- C8 witness: the amended theorem applied at the concrete inputs
`"12a"` (stray letter), `"2.0000001"` at precision 6 (nonzero seventh
fractional digit) and `"-2.5"` (negative): the first two yield the default
`"0"`, the third is accepted as `-2500000`. -/
theorem C8_witness :
    (parseUnits "12a" 6 = none ∧ formatUSDCAmount "12a" 6 = "0") ∧
    (parseUnits "2.0000001" 6 = none ∧
      formatUSDCAmount "2.0000001" 6 = "0") ∧
    (parseUnits "-2.5" 6 = some (-2500000) ∧
      formatUSDCAmount "-2.5" 6 = "-2500000") := by
  refine ⟨C8_amended.1 "12a" 6 'a' (by decide) (by decide) (by decide)
      (by decide), ?_, ?_⟩
  · exact C8_amended.2.1 6 ['2'] ['0', '0', '0', '0', '0', '0', '1']
      (by decide) (by decide) (by decide)
  · have h := C8_amended.2.2 "2.5" 6 2500000 (by decide) rfl
    exact ⟨h.2.1, h.2.2⟩

/-- Folding the digit accumulator from an arbitrary seed. -/
theorem digitsToNat_foldl (b : List Char) :
    ∀ v : Nat, b.foldl (fun a c => 10 * a + digitVal c) v
      = v * 10 ^ b.length + digitsToNat b := by
  induction b with
  | nil => intro v; simp [digitsToNat]
  | cons c b ih =>
    intro v
    simp only [List.foldl_cons, List.length_cons]
    rw [ih (10 * v + digitVal c)]
    unfold digitsToNat
    simp only [List.foldl_cons]
    rw [ih (10 * 0 + digitVal c)]
    unfold digitsToNat
    ring

/-- Value of a concatenation of digit strings. -/
theorem digitsToNat_append (a b : List Char) :
    digitsToNat (a ++ b) = digitsToNat a * 10 ^ b.length + digitsToNat b := by
  unfold digitsToNat
  rw [List.foldl_append]
  exact digitsToNat_foldl b _

/-- A run of zeros has value zero. -/
theorem digitsToNat_replicate_zero (k : Nat) :
    digitsToNat (List.replicate k '0') = 0 := by
  induction k with
  | zero => rfl
  | succ k ih =>
    rw [List.replicate_succ]
    unfold digitsToNat at ih ⊢
    simp only [List.foldl_cons]
    have h0 : 10 * 0 + digitVal '0' = 0 := by decide
    rw [h0, ih]

/-- Leading zeros do not change the value. -/
theorem digitsToNat_zeros_append (k : Nat) (l : List Char) :
    digitsToNat (List.replicate k '0' ++ l) = digitsToNat l := by
  rw [digitsToNat_append, digitsToNat_replicate_zero]
  ring

/-- The fuel-bounded digit printer is correct whenever the fuel covers
the argument: it prints a nonempty digit string whose value is the
argument. -/
theorem natToDigitsAux_spec :
    ∀ (fuel n : Nat), n ≤ fuel →
      digitsToNat (natToDigitsAux fuel n) = n ∧
      (natToDigitsAux fuel n).all isDigit = true ∧
      natToDigitsAux fuel n ≠ [] := by
  intro fuel
  induction fuel with
  | zero =>
    intro n hn
    have hz : n = 0 := by omega
    subst hz
    exact ⟨by decide, by decide, by decide⟩
  | succ fuel ih =>
    intro n hn
    unfold natToDigitsAux
    split_ifs with h10
    · have hd : digitVal (Char.ofNat (48 + n)) = n ∧
          isDigit (Char.ofNat (48 + n)) = true := by
        interval_cases n <;> exact ⟨by decide, by decide⟩
      refine ⟨?_, ?_, by simp⟩
      · unfold digitsToNat
        simp only [List.foldl_cons, List.foldl_nil]
        omega
      · simp [hd.2]
    · have hrec := ih (n / 10) (by omega)
      have hm : n % 10 < 10 := Nat.mod_lt n (by omega)
      have hd : digitVal (Char.ofNat (48 + n % 10)) = n % 10 ∧
          isDigit (Char.ofNat (48 + n % 10)) = true := by
        set m := n % 10 with hmdef
        interval_cases m <;> exact ⟨by decide, by decide⟩
      refine ⟨?_, ?_, by simp⟩
      · rw [digitsToNat_append, hrec.1]
        unfold digitsToNat
        simp only [List.foldl_cons, List.foldl_nil, List.length_cons,
          List.length_nil]
        omega
      · rw [List.all_append, hrec.2.1]
        simp [hd.2]

/-- `natToDigits` prints a nonempty digit string with the right value. -/
theorem natToDigits_spec (n : Nat) :
    digitsToNat (natToDigits n) = n ∧
      (natToDigits n).all isDigit = true ∧ natToDigits n ≠ [] :=
  natToDigitsAux_spec n n (Nat.le_refl n)

/-- A taken run of zero characters is a replicate. -/
theorem takeWhile_zero_replicate (xs : List Char) :
    ∃ k, xs.takeWhile (· == '0') = List.replicate k '0' := by
  refine ⟨(xs.takeWhile (· == '0')).length, ?_⟩
  apply List.eq_replicate_of_mem
  intro b hb
  have hb2 := List.mem_takeWhile_imp hb
  rwa [beq_iff_eq] at hb2

/-- Trimming trailing zeros keeps a nonempty prefix, only removes zeros
(so padding them back restores the input), and preserves digitness. -/
theorem trimFrac_spec (l : List Char) (hne : l ≠ []) :
    1 ≤ (trimFrac l).length ∧ (trimFrac l).length ≤ l.length ∧
      l = trimFrac l ++ List.replicate (l.length - (trimFrac l).length) '0' ∧
      (l.all isDigit = true → (trimFrac l).all isDigit = true) := by
  obtain ⟨k, hk⟩ := takeWhile_zero_replicate l.reverse
  have hsplit := List.takeWhile_append_dropWhile (· == '0') l.reverse
  rw [hk] at hsplit
  have hl : l = (l.reverse.dropWhile (· == '0')).reverse
      ++ List.replicate k '0' := by
    have h2 := congrArg List.reverse hsplit
    simpa [List.reverse_append, List.reverse_replicate] using h2.symm
  unfold trimFrac
  split_ifs with hc
  · rw [hc, List.nil_append] at hl
    have hk1 : 1 ≤ k := by
      rcases Nat.eq_zero_or_pos k with h0 | h
      · rw [h0] at hl
        simp only [List.replicate_zero] at hl
        exact absurd hl hne
      · omega
    have hlen : l.length = k := by rw [hl, List.length_replicate]
    obtain ⟨k2, rfl⟩ : ∃ k2, k = k2 + 1 := ⟨k - 1, by omega⟩
    refine ⟨by simp, by simp [hlen], ?_, fun _ => by decide⟩
    rw [show l.length - (['0'] : List Char).length = k2 from by
      simp [hlen]]
    rw [hl, List.replicate_succ]
    rfl
  · have hlp := List.length_pos.mpr hc
    have hlen : l.length
        = (l.reverse.dropWhile (· == '0')).reverse.length + k := by
      conv_lhs => rw [hl]
      rw [List.length_append, List.length_replicate]
    refine ⟨by omega, by omega, ?_, ?_⟩
    · rw [show l.length
          - (l.reverse.dropWhile (· == '0')).reverse.length = k from by
        omega]
      exact hl
    · intro hall
      apply List.all_eq_true.mpr
      intro b hb
      have hbl : b ∈ l := by
        rw [← List.mem_reverse]
        exact (List.dropWhile_sublist _).subset (List.mem_reverse.mp hb)
      exact List.all_eq_true.mp hall b hbl

/-- Scanning for the dot over a digit prefix finds the separator. -/
theorem dropWhile_ne_dot (w f : List Char) (hw : w.all isDigit = true) :
    (w ++ '.' :: f).dropWhile (· != '.') = '.' :: f := by
  induction w with
  | nil => rfl
  | cons a w ih =>
    simp only [List.all_cons, Bool.and_eq_true] at hw
    have ha : (a != '.') = true := by
      rw [bne_iff_ne]
      intro he
      rw [he] at hw
      exact absurd hw.1 (by decide)
    simp only [List.cons_append, List.dropWhile_cons, ha, if_true]
    exact ih hw.2

/-- A pure digit string contains no dot. -/
theorem dropWhile_ne_dot_all (l : List Char) (hl : l.all isDigit = true) :
    l.dropWhile (· != '.') = [] := by
  rw [List.dropWhile_eq_nil_iff]
  intro x hx
  have hd := List.all_eq_true.mp hl x hx
  rw [bne_iff_ne]
  intro he
  rw [he] at hd
  exact absurd hd (by decide)

/-- The unsigned matcher accepts a pure digit string with an empty
fractional group. -/
theorem matchDigits_all_digits (l : List Char) (hl : l.all isDigit = true) :
    matchDigits l = some (l, []) := by
  unfold matchDigits
  have hdrop : l.dropWhile isDigit = [] := by
    rw [List.dropWhile_eq_nil_iff]
    intro x hx
    exact List.all_eq_true.mp hl x hx
  have htake : l.takeWhile isDigit = l := by
    have h2 := List.takeWhile_append_dropWhile isDigit l
    rw [hdrop, List.append_nil] at h2
    exact h2
  rw [hdrop, htake]

/-- A pure digit string never starts with a dash. -/
theorem head_ne_dash_all_digits (l : List Char) (hl : l.all isDigit = true) :
    ∀ c, l.head? = some c → c ≠ '-' := by
  intro c hc hdash
  cases l with
  | nil => exact Option.noConfusion hc
  | cons a as =>
    simp only [List.head?_cons, Option.some.injEq] at hc
    simp only [List.all_cons, Bool.and_eq_true] at hl
    rw [hc, hdash] at hl
    exact absurd hl.1 (by decide)

/-- The full matcher on a pure digit string. -/
theorem matchDecimal_all_digits (l : List Char) (hl : l.all isDigit = true) :
    matchDecimal l = some (false, l, []) := by
  unfold matchDecimal
  rw [splitSign_no_dash _ (head_ne_dash_all_digits l hl)]
  simp only [matchDigits_all_digits l hl]

/-- Assembling the rendered output string concatenates the character
lists around the dot. -/
theorem string_concat_dot (a b : List Char) :
    "" ++ String.mk a ++ "." ++ String.mk b = String.mk (a ++ '.' :: b) := by
  show String.mk ((([] ++ a) ++ ['.']) ++ b) = String.mk (a ++ '.' :: b)
  exact congrArg String.mk (by simp)

/-- The 512-bit signed bound is positive. -/
theorem int512_pos : (0 : Int) < INT512 := by
  unfold INT512
  positivity

/-- Round trip at positive precision: `formatUnits` renders a
digits-dot-digits string with between 1 and `p` fractional digits, and
`parseUnits` maps it back to the original value. -/
theorem formatUnits_roundtrip_pos (x p : Nat) (hx : (x : Int) < INT512)
    (hp : 1 ≤ p) :
    ∃ w d : List Char,
      formatUnits (x : Int) p = some (String.mk (w ++ '.' :: d)) ∧
      w.all isDigit = true ∧ d.all isDigit = true ∧
      1 ≤ d.length ∧ d.length ≤ p ∧
      parseUnits (String.mk (w ++ '.' :: d)) p = some (x : Int) := by
  have hI := int512_pos
  have hx0 : (0 : Int) ≤ (x : Int) := Int.ofNat_nonneg x
  obtain ⟨hstr1, hstr2, hstr3⟩ := natToDigits_spec x
  set str := natToDigits x with hstrdef
  set padded := List.replicate (p + 1 - str.length) '0' ++ str with hpad
  have hpdig : padded.all isDigit = true := by
    rw [hpad, List.all_append, hstr2]
    have : (List.replicate (p + 1 - str.length) '0').all isDigit = true := by
      rw [List.all_eq_true]
      intro c hc
      rw [List.eq_of_mem_replicate hc]
      decide
    simp [this]
  have hL : p + 1 ≤ padded.length := by
    rw [hpad, List.length_append, List.length_replicate]
    have := List.length_pos.mpr hstr3
    omega
  set whole := padded.take (padded.length - p) with hwdef
  set d0 := padded.drop (padded.length - p) with hd0def
  have hd0len : d0.length = p := by
    rw [hd0def, List.length_drop]
    omega
  have hwlen : 1 ≤ whole.length := by
    rw [hwdef, List.length_take]
    omega
  have hwd0 : whole ++ d0 = padded := List.take_append_drop _ _
  have hwdig : whole.all isDigit = true := by
    rw [List.all_eq_true]
    intro c hc
    exact List.all_eq_true.mp hpdig c (List.take_subset _ _ hc)
  have hd0dig : d0.all isDigit = true := by
    rw [List.all_eq_true]
    intro c hc
    exact List.all_eq_true.mp hpdig c (List.drop_subset _ _ hc)
  have hd0ne : d0 ≠ [] := by
    intro h0
    rw [h0] at hd0len
    simp at hd0len
    omega
  obtain ⟨htr1, htr2, htr3, htr4⟩ := trimFrac_spec d0 hd0ne
  set d := trimFrac d0 with hddef
  have hddig : d.all isDigit = true := htr4 hd0dig
  have hmag : digitsToNat (whole ++ d0) = x := by
    rw [hwd0, hpad, digitsToNat_zeros_append]
    exact hstr1
  refine ⟨whole, d, ?_, hwdig, hddig, htr1, by omega, ?_⟩
  · unfold formatUnits
    rw [if_pos ⟨by omega, hx⟩, if_neg (by omega : ¬ (x : Int) < 0),
      if_neg (by omega : ¬ p = 0)]
    rw [Int.natAbs_ofNat]
    rw [← string_concat_dot]
  · unfold parseUnits
    have hdata : (String.mk (whole ++ '.' :: d)).data = whole ++ '.' :: d :=
      rfl
    rw [hdata, matchDecimal_of_digits whole d hwdig hddig]
    simp only
    rw [if_neg (by omega : ¬ whole.length + d.length = 0)]
    have hpadfrac : d ++ List.replicate (p - d.length) '0' = d0 := by
      rw [← hd0len]
      rw [← htr3]  -- hmm orientation: htr3 : d0 = d ++ replicate (d0.length - d.length) -- careful set names
    rw [hpadfrac]
    rw [if_pos ?hall]
    case hall =>
      rw [List.drop_eq_nil_of_le (by omega), List.all_nil]
    rw [List.take_of_length_le (by omega)]
    rw [if_pos ?hbound]
    case hbound =>
      constructor
      · rw [show applySign false (digitsToNat (whole ++ d0)) =
          ((digitsToNat (whole ++ d0) : Nat) : Int) from rfl, hmag]
        omega
      · rw [show applySign false (digitsToNat (whole ++ d0)) =
          ((digitsToNat (whole ++ d0) : Nat) : Int) from rfl, hmag]
        omega
    rw [show applySign false (digitsToNat (whole ++ d0)) =
      ((digitsToNat (whole ++ d0) : Nat) : Int) from rfl, hmag]

/-- Round trip at precision zero: `formatUnits` renders the bare digit
string and `parseUnits` maps it back. -/
theorem formatUnits_roundtrip_zero (x : Nat) (hx : (x : Int) < INT512) :
    formatUnits (x : Int) 0 = some (String.mk (natToDigits x)) ∧
    parseUnits (String.mk (natToDigits x)) 0 = some (x : Int) := by
  have hI := int512_pos
  have hx0 : (0 : Int) ≤ (x : Int) := Int.ofNat_nonneg x
  obtain ⟨hstr1, hstr2, hstr3⟩ := natToDigits_spec x
  constructor
  · unfold formatUnits
    rw [if_pos ⟨by omega, hx⟩, if_neg (by omega : ¬ (x : Int) < 0),
      if_pos rfl, Int.natAbs_ofNat]
    exact rfl
  · unfold parseUnits
    have hdata : (String.mk (natToDigits x)).data = natToDigits x := rfl
    rw [hdata, matchDecimal_all_digits _ hstr2]
    simp only
    rw [if_neg ?hlen]
    case hlen =>
      simp only [List.length_nil]
      intro h0
      have hpos := List.length_pos.mpr hstr3
      omega
    rw [List.take_zero, List.append_nil]
    rw [if_pos ?hall0]
    case hall0 => rfl
    rw [if_pos ?hb0]
    case hb0 =>
      constructor
      · rw [show applySign false (digitsToNat (natToDigits x)) =
          ((digitsToNat (natToDigits x) : Nat) : Int) from rfl, hstr1]
        omega
      · rw [show applySign false (digitsToNat (natToDigits x)) =
          ((digitsToNat (natToDigits x) : Nat) : Int) from rfl, hstr1]
        omega
    rw [show applySign false (digitsToNat (natToDigits x)) =
      ((digitsToNat (natToDigits x) : Nat) : Int) from rfl, hstr1]

/-- C9 counterexample: `parseUSDCAmount` does not always produce exactly
`p` fractional digits — ethers v6 `formatUnits` trims trailing zeros down
to one, so 1000000 at 6 decimals renders as `"1.0"` (one fractional
digit), not `"1.000000"`. -/
theorem C9_counterexample :
    parseUSDCAmount 1000000 6 = "1.0" ∧
    fracDigitCount (parseUSDCAmount 1000000 6) = 1 ∧
    ¬ fracDigitCount (parseUSDCAmount 1000000 6) = 6 := by
  exact ⟨rfl, rfl, by decide⟩

/-- C9 (amended): for every non-negative integer `x` below the 512-bit
bound and every precision `p`, the round-trip law holds:
`toSmallestUnit(toDecimalString(x, p), p) = x`, both at the `parseUnits`
level and through the `formatUSDCAmount` wrapper; the rendered string has
between 1 and `p` fractional digits when `p >= 1` (trailing zeros beyond
the first are trimmed), and none when `p = 0`. -/
theorem C9_amended (x p : Nat) (hx : (x : Int) < INT512) :
    parseUnits (parseUSDCAmount (x : Int) p) p = some (x : Int) ∧
    formatUSDCAmount (parseUSDCAmount (x : Int) p) p = intToString (x : Int) ∧
    (1 ≤ p → 1 ≤ fracDigitCount (parseUSDCAmount (x : Int) p) ∧
      fracDigitCount (parseUSDCAmount (x : Int) p) ≤ p) ∧
    (p = 0 → fracDigitCount (parseUSDCAmount (x : Int) p) = 0) := by
  rcases Nat.eq_zero_or_pos p with hp0 | hp1
  · subst hp0
    obtain ⟨hf, hpu⟩ := formatUnits_roundtrip_zero x hx
    have hobj : parseUSDCAmount (x : Int) 0 = String.mk (natToDigits x) := by
      simp only [parseUSDCAmount]
      rw [hf]
      rfl
    refine ⟨by rw [hobj]; exact hpu, ?_, fun h => absurd h (by omega), ?_⟩
    · rw [hobj]
      simp only [formatUSDCAmount]
      rw [hpu]
      rfl
    · intro _
      rw [hobj]
      unfold fracDigitCount
      have hdata : (String.mk (natToDigits x)).data = natToDigits x := rfl
      rw [hdata, dropWhile_ne_dot_all _ (natToDigits_spec x).2.1]
      rfl
  · obtain ⟨w, d, hf, hwdig, hddig, hd1, hdp, hpu⟩ :=
      formatUnits_roundtrip_pos x p hx hp1
    have hobj : parseUSDCAmount (x : Int) p = String.mk (w ++ '.' :: d) := by
      simp only [parseUSDCAmount]
      rw [hf]
      rfl
    refine ⟨by rw [hobj]; exact hpu, ?_, ?_, fun h => absurd h (by omega)⟩
    · rw [hobj]
      simp only [formatUSDCAmount]
      rw [hpu]
      rfl
    · intro _
      rw [hobj]
      unfold fracDigitCount
      have hdata : (String.mk (w ++ '.' :: d)).data = w ++ '.' :: d := rfl
      rw [hdata, dropWhile_ne_dot w d hwdig]
      exact ⟨hd1, hdp⟩

/-- C9 witness: the amended theorem applied at `x = 1000000, p = 6` — the
rendered string parses back to 1000000 and carries between 1 and 6
fractional digits — and at `x = 123, p = 0`. -/
theorem C9_witness :
    parseUnits (parseUSDCAmount 1000000 6) 6 = some 1000000 ∧
    formatUSDCAmount (parseUSDCAmount 1000000 6) 6 = intToString 1000000 ∧
    1 ≤ fracDigitCount (parseUSDCAmount 1000000 6) ∧
    fracDigitCount (parseUSDCAmount 1000000 6) ≤ 6 ∧
    parseUnits (parseUSDCAmount 123 0) 0 = some 123 ∧
    fracDigitCount (parseUSDCAmount 123 0) = 0 := by
  have h1 := C9_amended 1000000 6 (by norm_num [INT512])
  have h2 := C9_amended 123 0 (by norm_num [INT512])
  exact ⟨h1.1, h1.2.1, (h1.2.2.1 (by omega)).1, (h1.2.2.1 (by omega)).2,
    h2.1, h2.2.2.2 rfl⟩
